import Mathlib

/-!
# wlgears: gear mesh builder and 4x4 transform pipeline

A shallow embedding of the computational core of `src/wlgears.c`:

* the 4x4 matrix routines `multiply`, `rotate`, `translate`, `identity`,
  `transpose`, `invert`, `frustum`;
* the vertex writer `vert` and the strip-emission loop of `create_gear`.

`GLfloat` is modelled by an arbitrary commutative ring (a field where the code
divides), so all statements are about exact arithmetic.  The libm routine
`sincos` and the constant `M_PI` are not part of the source file; they are
taken as parameters.
-/

namespace Wlgears

/-! ## Matrices: `GLfloat m[16]` -/

/-- A `GLfloat[16]` array. -/
abbrev Mat (α : Type) := Fin 16 → α

section MatrixCode

variable {α : Type}

/-- Source `multiply(m, n)`: for every `i`, with `d = div(i, 4)`,
`row = n + d.quot * 4`, `column = m + d.rem`, the accumulator `tmp[i]` starts at
`0` and receives `row[j] * column[j * 4]` for `j = 0..3`; the result is then
copied over `m`. -/
def multiply [Zero α] [Add α] [Mul α] (m n : Mat α) : Mat α :=
  fun i =>
    Fin.foldl 4
      (fun acc j =>
        acc + n ⟨(i.val / 4) * 4 + j.val, by omega⟩ * m ⟨i.val % 4 + j.val * 4, by omega⟩)
      0

/-- Source `identity(m)`. -/
def identity [Zero α] [One α] : Mat α :=
  ![1, 0, 0, 0,
    0, 1, 0, 0,
    0, 0, 1, 0,
    0, 0, 0, 1]

/-- Source `rotate(m, angle, x, y, z)`; `sincos a` returns the pair
`(sin a, cos a)` that the libm call stores in `s` and `c`. -/
def rotate [Ring α] (sincos : α → α × α) (m : Mat α) (angle x y z : α) : Mat α :=
  let s := (sincos angle).1
  let c := (sincos angle).2
  let r : Mat α :=
    ![x * x * (1 - c) + c, y * x * (1 - c) + z * s, x * z * (1 - c) - y * s, 0,
      x * y * (1 - c) - z * s, y * y * (1 - c) + c, y * z * (1 - c) + x * s, 0,
      x * z * (1 - c) + y * s, y * z * (1 - c) - x * s, z * z * (1 - c) + c, 0,
      0, 0, 0, 1]
  multiply m r

/-- Source `translate(m, x, y, z)`. -/
def translate [Zero α] [One α] [Add α] [Mul α] (m : Mat α) (x y z : α) : Mat α :=
  let t : Mat α :=
    ![1, 0, 0, 0,
      0, 1, 0, 0,
      0, 0, 1, 0,
      x, y, z, 1]
  multiply m t

/-- Source `transpose(m)`. -/
def transpose (m : Mat α) : Mat α :=
  ![m 0, m 4, m 8, m 12,
    m 1, m 5, m 9, m 13,
    m 2, m 6, m 10, m 14,
    m 3, m 7, m 11, m 15]

/-- Source `invert(m)`: `t` is the identity with `t[12..14]` set to
`-m[12..14]`; then `m[12] = m[13] = m[14] = 0`, `transpose(m)`,
`multiply(m, t)`. -/
def invert [Ring α] (m : Mat α) : Mat α :=
  let t0 : Mat α := identity
  let t1 := Function.update t0 12 (-m 12)
  let t2 := Function.update t1 13 (-m 13)
  let t := Function.update t2 14 (-m 14)
  let m1 := Function.update m 14 0
  let m2 := Function.update m1 13 0
  let m3 := Function.update m2 12 0
  let m4 := transpose m3
  multiply m4 t

/-- Source `frustum(m, l, r, b, t, n, f)`; the previous contents of `m` are an
input of the C function (it is an in/out pointer) and are overwritten. -/
def frustum [Field α] (_m : Mat α) (l r b t n f : α) : Mat α :=
  let tmp : Mat α := identity
  let deltaX := r - l
  let deltaY := t - b
  let deltaZ := f - n
  let tmp := Function.update tmp 0 ((2 * n) / deltaX)
  let tmp := Function.update tmp 5 ((2 * n) / deltaY)
  let tmp := Function.update tmp 8 ((r + l) / deltaX)
  let tmp := Function.update tmp 9 ((t + b) / deltaY)
  let tmp := Function.update tmp 10 (-(f + n) / deltaZ)
  let tmp := Function.update tmp 11 (-1)
  let tmp := Function.update tmp 14 (-(2 * f * n) / deltaZ)
  let tmp := Function.update tmp 15 0
  tmp

end MatrixCode

/-! ## The gear mesh builder -/

section GearCode

variable {α : Type}

/-- The type `GearVertex`: `GLfloat[GEAR_VERTEX_STRIDE]` with stride 6, the position
`(x, y, z)` followed by the normal `(nx, ny, nz)`. -/
abbrev GearVertex (α : Type) := Fin 6 → α

/-- Constant `VERTICES_PER_TOOTH`. -/
def VERTICES_PER_TOOTH : Int := 46

/-- The `struct point` of `create_gear`. -/
structure point (α : Type) where
  x : α
  y : α

/-- The `struct gear`, without the GL buffer handle `vbo`. -/
structure gear (α : Type) where
  vertices : List (GearVertex α)
  nvertices : Int

/-- The ways `create_gear` can go wrong: the two `assert`s and a memory access
outside the allocated vertex array. -/
inductive GearError where
  | assert_teeth
  | out_of_bounds
  | assert_nvertices
  deriving DecidableEq, Repr

/-- The mutable locals of `create_gear` that the strip macros touch: the
vertex array `gear->vertices`, the write cursor `v` (as the offset
`v - gear->vertices`), `cur_strip_start` and `normal`. -/
structure GearState (α : Type) where
  vertices : List (GearVertex α)
  v : Nat
  cur_strip_start : Nat
  normal : Fin 3 → α

/-- Source `vert(v, x, y, z, n)`: fills the vertex under the cursor and returns
the cursor advanced by one.  Writing outside the array is an error. -/
def vert (st : GearState α) (x y z : α) (n : Fin 3 → α) :
    Except GearError (GearState α) :=
  if st.v < st.vertices.length then
    .ok { st with
      vertices := st.vertices.set st.v ![x, y, z, n 0, n 1, n 2]
      v := st.v + 1 }
  else .error .out_of_bounds

/-- Call `memcpy(gear->vertices + dst, gear->vertices + src, sizeof(GearVertex))`,
with both indices checked against the array. -/
def memcpyVertex (buf : List (GearVertex α)) (dst src : Nat) :
    Except GearError (List (GearVertex α)) :=
  match buf[src]? with
  | none => .error .out_of_bounds
  | some a => if dst < buf.length then .ok (buf.set dst a) else .error .out_of_bounds

/-- Macro `GEAR_POINT(r, da)`, with `c[da]` and `s[da]` passed in. -/
def GEAR_POINT [Mul α] (r c s : α) : point α := ⟨r * c, r * s⟩

/-- Macro `SET_NORMAL(x, y, z)`. -/
def SET_NORMAL (x y z : α) (st : GearState α) : GearState α :=
  { st with normal := ![x, y, z] }

/-- Macro `GEAR_VERT(v, point, sign)`:
`vert(v, p[point].x, p[point].y, sign * width * 0.5, normal)`. -/
def GEAR_VERT [Field α] (p : Fin 7 → point α) (width : α) (pt : Fin 7) (sign : α)
    (st : GearState α) : Except GearError (GearState α) :=
  vert st (p pt).x (p pt).y (sign * width * (1 / 2)) st.normal

/-- Macro `START_STRIP`: `cur_strip_start = v - gear->vertices;
if (cur_strip_start) v += 2;`. -/
def START_STRIP (st : GearState α) : GearState α :=
  let st := { st with cur_strip_start := st.v }
  if st.cur_strip_start ≠ 0 then { st with v := st.v + 2 } else st

/-- Macro `END_STRIP`: when `cur_strip_start` is nonzero, copy the vertex at
`cur_strip_start - 1` to `cur_strip_start` and the vertex at
`cur_strip_start + 2` to `cur_strip_start + 1`. -/
def END_STRIP (st : GearState α) : Except GearError (GearState α) :=
  if st.cur_strip_start ≠ 0 then do
    let b1 ← memcpyVertex st.vertices st.cur_strip_start (st.cur_strip_start - 1)
    let b2 ← memcpyVertex b1 (st.cur_strip_start + 1) (st.cur_strip_start + 2)
    pure { st with vertices := b2 }
  else pure st

/-- Macro `QUAD_WITH_NORMAL(p1, p2)`. -/
def QUAD_WITH_NORMAL [Field α] (p : Fin 7 → point α) (width : α) (p1 p2 : Fin 7)
    (st : GearState α) : Except GearError (GearState α) := do
  let st := SET_NORMAL ((p p1).y - (p p2).y) (-((p p1).x - (p p2).x)) 0 st
  let st ← GEAR_VERT p width p1 (-1) st
  let st ← GEAR_VERT p width p1 1 st
  let st ← GEAR_VERT p width p2 (-1) st
  let st ← GEAR_VERT p width p2 1 st
  pure st

/-- The block `Front face` of the loop body. -/
def strip_front_face [Field α] (p : Fin 7 → point α) (width : α)
    (st : GearState α) : Except GearError (GearState α) := do
  let st := START_STRIP st
  let st := SET_NORMAL 0 0 1 st
  let st ← GEAR_VERT p width 0 1 st
  let st ← GEAR_VERT p width 1 1 st
  let st ← GEAR_VERT p width 2 1 st
  let st ← GEAR_VERT p width 3 1 st
  let st ← GEAR_VERT p width 4 1 st
  let st ← GEAR_VERT p width 5 1 st
  let st ← GEAR_VERT p width 6 1 st
  END_STRIP st

/-- The block `Back face` of the loop body. -/
def strip_back_face [Field α] (p : Fin 7 → point α) (width : α)
    (st : GearState α) : Except GearError (GearState α) := do
  let st := START_STRIP st
  let st := SET_NORMAL 0 0 (-1) st
  let st ← GEAR_VERT p width 0 (-1) st
  let st ← GEAR_VERT p width 1 (-1) st
  let st ← GEAR_VERT p width 2 (-1) st
  let st ← GEAR_VERT p width 3 (-1) st
  let st ← GEAR_VERT p width 4 (-1) st
  let st ← GEAR_VERT p width 5 (-1) st
  let st ← GEAR_VERT p width 6 (-1) st
  END_STRIP st

/-- One strip of the block `Outer face`:
`START_STRIP; QUAD_WITH_NORMAL(p1, p2); END_STRIP;`. -/
def strip_outer_face [Field α] (p : Fin 7 → point α) (width : α) (p1 p2 : Fin 7)
    (st : GearState α) : Except GearError (GearState α) := do
  let st := START_STRIP st
  let st ← QUAD_WITH_NORMAL p width p1 p2 st
  END_STRIP st

/-- The block `Inner face` of the loop body; `s` and `c` are the arrays
`s[5]` and `c[5]`. -/
def strip_inner_face [Field α] (p : Fin 7 → point α) (s c : Fin 5 → α) (width : α)
    (st : GearState α) : Except GearError (GearState α) := do
  let st := START_STRIP st
  let st := SET_NORMAL (-c 0) (-s 0) 0 st
  let st ← GEAR_VERT p width 4 (-1) st
  let st ← GEAR_VERT p width 4 1 st
  let st := SET_NORMAL (-c 4) (-s 4) 0 st
  let st ← GEAR_VERT p width 6 (-1) st
  let st ← GEAR_VERT p width 6 1 st
  END_STRIP st

/-- The arrays `s[5]` and `c[5]` of iteration `i`, as the five results of
`sincos` (each a pair `(sin, cos)`). -/
def tooth_sincos [Field α] (sincos : α → α × α) (pi da : α) (teeth : Int) (i : Nat) :
    Fin 5 → α × α :=
  ![sincos ((i : α) * 2 * pi / (teeth : α)),
    sincos ((i : α) * 2 * pi / (teeth : α) + da),
    sincos ((i : α) * 2 * pi / (teeth : α) + da * 2),
    sincos ((i : α) * 2 * pi / (teeth : α) + da * 3),
    sincos ((i : α) * 2 * pi / (teeth : α) + da * 4)]

/-- The array `p[7]` of iteration `i`. -/
def tooth_points [Field α] (r0 r1 r2 : α) (s c : Fin 5 → α) : Fin 7 → point α :=
  ![GEAR_POINT r2 (c 1) (s 1),
    GEAR_POINT r2 (c 2) (s 2),
    GEAR_POINT r1 (c 0) (s 0),
    GEAR_POINT r1 (c 3) (s 3),
    GEAR_POINT r0 (c 0) (s 0),
    GEAR_POINT r1 (c 4) (s 4),
    GEAR_POINT r0 (c 4) (s 4)]

/-- The body of the loop `for (i = 0; i < teeth; i++)` of `create_gear`. -/
def tooth [Field α] (sincos : α → α × α) (pi r0 r1 r2 da width : α) (teeth : Int)
    (i : Nat) (st : GearState α) : Except GearError (GearState α) := do
  let sc := tooth_sincos sincos pi da teeth i
  let s : Fin 5 → α := fun k => (sc k).1
  let c : Fin 5 → α := fun k => (sc k).2
  let p := tooth_points r0 r1 r2 s c
  let st ← strip_front_face p width st
  let st ← strip_back_face p width st
  let st ← strip_outer_face p width 0 2 st
  let st ← strip_outer_face p width 1 0 st
  let st ← strip_outer_face p width 3 1 st
  let st ← strip_outer_face p width 5 3 st
  strip_inner_face p s c width st

/-- The loop `for (i = 0; i < teeth; i++)` of `create_gear`. -/
def create_gear_loop [Field α] (sincos : α → α × α) (pi r0 r1 r2 da width : α)
    (teeth : Int) (st : GearState α) : Except GearError (GearState α) :=
  (List.range teeth.toNat).foldlM
    (fun st i => tooth sincos pi r0 r1 r2 da width teeth i st) st

/-- The locals of `create_gear` on entry to the loop: the array returned by
`calloc(nvertices, sizeof(GearVertex))` (all zero), `v = gear->vertices` and
`cur_strip_start = 0`.  The array `normal` is not initialised by the source; it
is set before every use. -/
def create_gear_init [Zero α] (nvertices : Int) : GearState α :=
  { vertices := List.replicate nvertices.toNat (fun _ => 0)
    v := 0
    cur_strip_start := 0
    normal := fun _ => 0 }

/-- Source `create_gear(inner_radius, outer_radius, width, teeth, tooth_depth)`,
up to the final assertion; the upload of the buffer to the GPU is left out.
A failed `assert` is an error. -/
def create_gear [Field α] (sincos : α → α × α) (pi : α)
    (inner_radius outer_radius width : α) (teeth : Int) (tooth_depth : α) :
    Except GearError (gear α) :=
  let r0 := inner_radius
  let r1 := outer_radius - tooth_depth / 2
  let r2 := outer_radius + tooth_depth / 2
  let da := 2 * pi / (teeth : α) / 4
  if ¬ (teeth > 0) then .error .assert_teeth
  else
    let nvertices : Int := VERTICES_PER_TOOTH + (VERTICES_PER_TOOTH + 2) * (teeth - 1)
    do
      let st ← create_gear_loop sincos pi r0 r1 r2 da width teeth (create_gear_init nvertices)
      if nvertices = (st.v : Int) then
        pure { vertices := st.vertices, nvertices := nvertices }
      else .error .assert_nvertices

end GearCode

/-! ## Reading an array as a matrix -/

section MatrixSpec

variable {α : Type}

/-- The column-major reading of a 16-entry array: the entry of row `r`,
column `c` is stored at index `4 * c + r`. -/
def toMatrix (m : Mat α) : Matrix (Fin 4) (Fin 4) α :=
  fun r c => m ⟨4 * c.val + r.val, by omega⟩

/-- The upper-left 3x3 block of the column-major reading. -/
def upper3 (m : Mat α) : Matrix (Fin 3) (Fin 3) α :=
  fun r c => m ⟨4 * c.val + r.val, by omega⟩

/-- The translation matrix of the specification: the identity with its fourth
column set to `(x, y, z, 1)`. -/
def translationMatrix [Zero α] [One α] (x y z : α) : Matrix (Fin 4) (Fin 4) α :=
  !![1, 0, 0, x;
     0, 1, 0, y;
     0, 0, 1, z;
     0, 0, 0, 1]

/-- The cross-product matrix `[k]_x` of the axis `k = (x, y, z)`. -/
def crossMatrix [Zero α] [Neg α] (x y z : α) : Matrix (Fin 3) (Fin 3) α :=
  !![0, -z, y;
     z, 0, -x;
     -y, x, 0]

/-- The 3x3 Rodrigues block `c * I + s * [k]_x + (1 - c) * k * k^T`. -/
def rodrigues3 [Ring α] (s c x y z : α) : Matrix (Fin 3) (Fin 3) α :=
  c • (1 : Matrix (Fin 3) (Fin 3) α) + s • crossMatrix x y z
    + (1 - c) • Matrix.vecMulVec ![x, y, z] ![x, y, z]

/-- A 3x3 block placed in a 4x4 matrix whose fourth row and column are those of
the identity. -/
def embed3 [Zero α] [One α] (a : Matrix (Fin 3) (Fin 3) α) : Matrix (Fin 4) (Fin 4) α :=
  fun i j =>
    if h : i.val < 3 ∧ j.val < 3 then a ⟨i.val, h.1⟩ ⟨j.val, h.2⟩
    else if i = j then 1 else 0

/-- The Rodrigues rotation matrix of the specification. -/
def rodriguesMatrix [Ring α] (s c x y z : α) : Matrix (Fin 4) (Fin 4) α :=
  embed3 (rodrigues3 s c x y z)

/-- The precondition of `invert`: the upper-left 3x3 block is orthogonal and the
bottom row is `(0, 0, 0, 1)`. -/
def IsRigid [Ring α] (m : Mat α) : Prop :=
  upper3 m * (upper3 m).transpose = 1 ∧ m 3 = 0 ∧ m 7 = 0 ∧ m 11 = 0 ∧ m 15 = 1

/-- One call of a transform builder. -/
inductive Op (α : Type) where
  | translate (x y z : α) : Op α
  | rotate (angle x y z : α) : Op α

/-- Apply one builder call to a matrix. -/
def Op.apply [Ring α] (sincos : α → α × α) (m : Mat α) : Op α → Mat α
  | .translate x y z => Wlgears.translate m x y z
  | .rotate a x y z => Wlgears.rotate sincos m a x y z

/-- Apply a finite sequence of builder calls, first call first. -/
def applyOps [Ring α] (sincos : α → α × α) (ops : List (Op α)) (m : Mat α) : Mat α :=
  ops.foldl (Op.apply sincos) m

/-- Every rotation of the sequence has a unit-length axis. -/
def Op.UnitAxis [Ring α] : Op α → Prop
  | .translate _ _ _ => True
  | .rotate _ x y z => x ^ 2 + y ^ 2 + z ^ 2 = 1

/-- An example of a rigid matrix: the quarter turn about the z axis followed by
the translation `(1, 2, 3)`. -/
def rigidExample : Mat ℚ :=
  ![0, 1, 0, 0,
    -1, 0, 0, 0,
    0, 0, 1, 0,
    1, 2, 3, 1]

end MatrixSpec

/-! ## Bookkeeping of the strip-emission loop -/

section GearSpec

variable {α : Type}

/-- The bookkeeping part of a builder state: array length `L`,
`cur_strip_start = c`, cursor `v`. -/
def At (L c v : Nat) (st : GearState α) : Prop :=
  st.vertices.length = L ∧ st.cur_strip_start = c ∧ st.v = v

/-- The cursor after `START_STRIP` when it was `v` before. -/
def stripStart (v : Nat) : Nat := if v = 0 then 0 else v + 2

/-- The cursor after one whole tooth when it was `v` before: 46 slots for the
first tooth, 48 for every later one. -/
def toothEnd (v : Nat) : Nat := if v = 0 then 46 else v + 48

/-- The cursor after `k` iterations of the loop. -/
def loopEnd (k : Nat) : Nat := if k = 0 then 0 else 48 * k - 2

end GearSpec

/-! ## Frame composition: `draw_gear`, `redraw`, `check_egl_ext` -/

section FrameCode

variable {α : Type}

/-- The matrix `model_view` of `draw_gear(gear, transform, x, y, angle, color)`:
a copy of `transform`, then `translate(model_view, x, y, 0)` and
`rotate(model_view, 2 * M_PI * angle / 360.0, 0, 0, 1)`. -/
def draw_gear_model_view [Field α] (sincos : α → α × α) (pi : α) (transform : Mat α)
    (x y angle : α) : Mat α :=
  let model_view := transform
  let model_view := translate model_view x y 0
  let model_view := rotate sincos model_view (2 * pi * angle / 360) 0 0 1
  model_view

/-- The matrix `normal_matrix` of `draw_gear`: a copy of `model_view`, then
`invert(normal_matrix)` and `transpose(normal_matrix)`. -/
def draw_gear_normal_matrix [Field α] (sincos : α → α × α) (pi : α) (transform : Mat α)
    (x y angle : α) : Mat α :=
  let normal_matrix := draw_gear_model_view sincos pi transform x y angle
  let normal_matrix := invert normal_matrix
  let normal_matrix := transpose normal_matrix
  normal_matrix

/-- The matrix `transform` that `redraw` hands to `draw_gear`: `identity`, then
`translate(transform, 0, 0, -40)` and the three rotations by `view_rot`. -/
def redraw_transform [Field α] (sincos : α → α × α) (pi : α) (view_rot : Fin 3 → α) :
    Mat α :=
  let transform : Mat α := identity
  let transform := translate transform 0 0 (-40)
  let transform := rotate sincos transform (2 * pi * view_rot 0 / 360) 1 0 0
  let transform := rotate sincos transform (2 * pi * view_rot 1 / 360) 0 1 0
  let transform := rotate sincos transform (2 * pi * view_rot 2 / 360) 0 0 1
  transform

/-- The update of the global `angle` in one call of `redraw`, with `dt` the
elapsed time: `angle += 70.0 * dt; if (angle > 3600.0) angle -= 3600.0;`. -/
def redraw_angle [LinearOrderedField α] (angle dt : α) : α :=
  let angle := angle + 70 * dt
  if angle > 3600 then angle - 3600 else angle

/-- The value of `angle` after a sequence of frames with elapsed times `dts`. -/
def redraw_angle_frames [LinearOrderedField α] (angle : α) (dts : List α) : α :=
  dts.foldl redraw_angle angle

/-- The call `strcspn(exts, " ")`: the length of the initial run of characters
other than the space. -/
def strcspn_space (exts : List Char) : Nat :=
  (exts.takeWhile (fun ch => ch ≠ ' ')).length

/-- Source `check_egl_ext(exts, ext)`, on strings as lists of characters; the
argument `exts` is the part of the string from the moving pointer `exts` to
`end`.  `strncmp(ext, exts, n) == 0` with `n == extlen` compares the first `n`
characters. -/
def check_egl_ext (exts ext : List Char) : Bool :=
  match exts with
  | [] => false
  | ch :: rest =>
    if ch = ' ' then check_egl_ext rest ext
    else
      let n := strcspn_space (ch :: rest)
      if n = ext.length ∧ ext.take n = (ch :: rest).take n then true
      else check_egl_ext ((ch :: rest).drop n) ext
termination_by exts.length
decreasing_by
  · simp
  · have hsp : ¬ ch = ' ' := by assumption
    have hpos : 0 < strcspn_space (ch :: rest) := by
      simp [strcspn_space, List.takeWhile_cons, hsp]
    simp only [List.length_drop, List.length_cons]
    omega

/-- The list `t` is a token of `exts`: a maximal run of non-space characters,
that is a nonempty space-free piece of `exts` that starts at the beginning of
`exts` or right after a space and ends at the end of `exts` or right before a
space. -/
def IsToken (exts t : List Char) : Prop :=
  t ≠ [] ∧ ' ' ∉ t ∧
    ∃ pre post, exts = pre ++ t ++ post ∧
      (pre = [] ∨ pre.getLast? = some ' ') ∧ (post = [] ∨ post.head? = some ' ')

/-- A matrix with its translation entries (indices 12, 13, 14) set to zero. -/
def zeroTranslation [Zero α] (m : Mat α) : Mat α :=
  Function.update (Function.update (Function.update m 12 0) 13 0) 14 0

end FrameCode

/-! ## The vertex list of a gear -/

section GearList

variable {α : Type}

/-- The vertex that `GEAR_VERT(v, point, sign)` stores while the array `normal`
holds `normal`. -/
def gearVertex [Field α] (p : Fin 7 → point α) (width : α) (pt : Fin 7) (sign : α)
    (normal : Fin 3 → α) : GearVertex α :=
  ![(p pt).x, (p pt).y, sign * width * (1 / 2), normal 0, normal 1, normal 2]

/-- The seven vertices of the front face strip, normal `(0, 0, 1)`. -/
def frontVerts [Field α] (p : Fin 7 → point α) (width : α) : List (GearVertex α) :=
  [gearVertex p width 0 1 ![0, 0, 1], gearVertex p width 1 1 ![0, 0, 1],
   gearVertex p width 2 1 ![0, 0, 1], gearVertex p width 3 1 ![0, 0, 1],
   gearVertex p width 4 1 ![0, 0, 1], gearVertex p width 5 1 ![0, 0, 1],
   gearVertex p width 6 1 ![0, 0, 1]]

/-- The seven vertices of the back face strip, normal `(0, 0, -1)`. -/
def backVerts [Field α] (p : Fin 7 → point α) (width : α) : List (GearVertex α) :=
  [gearVertex p width 0 (-1) ![0, 0, -1], gearVertex p width 1 (-1) ![0, 0, -1],
   gearVertex p width 2 (-1) ![0, 0, -1], gearVertex p width 3 (-1) ![0, 0, -1],
   gearVertex p width 4 (-1) ![0, 0, -1], gearVertex p width 5 (-1) ![0, 0, -1],
   gearVertex p width 6 (-1) ![0, 0, -1]]

/-- The edge normal `(dy, -dx, 0)` of the profile edge from `p2` to `p1`. -/
def edgeNormal [Field α] (p : Fin 7 → point α) (p1 p2 : Fin 7) : Fin 3 → α :=
  ![(p p1).y - (p p2).y, -((p p1).x - (p p2).x), 0]

/-- The four vertices of an outer face quad over the profile edge `p1`, `p2`. -/
def quadVerts [Field α] (p : Fin 7 → point α) (width : α) (p1 p2 : Fin 7) :
    List (GearVertex α) :=
  [gearVertex p width p1 (-1) (edgeNormal p p1 p2), gearVertex p width p1 1 (edgeNormal p p1 p2),
   gearVertex p width p2 (-1) (edgeNormal p p1 p2), gearVertex p width p2 1 (edgeNormal p p1 p2)]

/-- The four vertices of the inner face strip, each radial wall with its own
inward normal. -/
def innerVerts [Field α] (p : Fin 7 → point α) (s c : Fin 5 → α) (width : α) :
    List (GearVertex α) :=
  [gearVertex p width 4 (-1) ![-c 0, -s 0, 0], gearVertex p width 4 1 ![-c 0, -s 0, 0],
   gearVertex p width 6 (-1) ![-c 4, -s 4, 0], gearVertex p width 6 1 ![-c 4, -s 4, 0]]

/-- Appending a strip to the vertices written so far, by the restart
convention: if something was written before, the strip is preceded by a copy
of the last vertex written and a copy of its own first vertex. -/
def joinStrip (w s : List (GearVertex α)) : List (GearVertex α) :=
  match w.getLast?, s with
  | some a, b :: r => w ++ a :: b :: b :: r
  | _, _ => w ++ s

/-- The 46 slots that one tooth fills when it is the first: its seven strips,
each strip after the first preceded by a copy of the vertex before it and a
copy of its own first vertex. -/
def toothVerts [Field α] (p : Fin 7 → point α) (s c : Fin 5 → α) (width : α) :
    List (GearVertex α) :=
  [gearVertex p width 0 1 ![0, 0, 1],
   gearVertex p width 1 1 ![0, 0, 1],
   gearVertex p width 2 1 ![0, 0, 1],
   gearVertex p width 3 1 ![0, 0, 1],
   gearVertex p width 4 1 ![0, 0, 1],
   gearVertex p width 5 1 ![0, 0, 1],
   gearVertex p width 6 1 ![0, 0, 1],
   gearVertex p width 6 1 ![0, 0, 1],
   gearVertex p width 0 (-1) ![0, 0, -1],
   gearVertex p width 0 (-1) ![0, 0, -1],
   gearVertex p width 1 (-1) ![0, 0, -1],
   gearVertex p width 2 (-1) ![0, 0, -1],
   gearVertex p width 3 (-1) ![0, 0, -1],
   gearVertex p width 4 (-1) ![0, 0, -1],
   gearVertex p width 5 (-1) ![0, 0, -1],
   gearVertex p width 6 (-1) ![0, 0, -1],
   gearVertex p width 6 (-1) ![0, 0, -1],
   gearVertex p width 0 (-1) (edgeNormal p 0 2),
   gearVertex p width 0 (-1) (edgeNormal p 0 2),
   gearVertex p width 0 1 (edgeNormal p 0 2),
   gearVertex p width 2 (-1) (edgeNormal p 0 2),
   gearVertex p width 2 1 (edgeNormal p 0 2),
   gearVertex p width 2 1 (edgeNormal p 0 2),
   gearVertex p width 1 (-1) (edgeNormal p 1 0),
   gearVertex p width 1 (-1) (edgeNormal p 1 0),
   gearVertex p width 1 1 (edgeNormal p 1 0),
   gearVertex p width 0 (-1) (edgeNormal p 1 0),
   gearVertex p width 0 1 (edgeNormal p 1 0),
   gearVertex p width 0 1 (edgeNormal p 1 0),
   gearVertex p width 3 (-1) (edgeNormal p 3 1),
   gearVertex p width 3 (-1) (edgeNormal p 3 1),
   gearVertex p width 3 1 (edgeNormal p 3 1),
   gearVertex p width 1 (-1) (edgeNormal p 3 1),
   gearVertex p width 1 1 (edgeNormal p 3 1),
   gearVertex p width 1 1 (edgeNormal p 3 1),
   gearVertex p width 5 (-1) (edgeNormal p 5 3),
   gearVertex p width 5 (-1) (edgeNormal p 5 3),
   gearVertex p width 5 1 (edgeNormal p 5 3),
   gearVertex p width 3 (-1) (edgeNormal p 5 3),
   gearVertex p width 3 1 (edgeNormal p 5 3),
   gearVertex p width 3 1 (edgeNormal p 5 3),
   gearVertex p width 4 (-1) ![-c 0, -s 0, 0],
   gearVertex p width 4 (-1) ![-c 0, -s 0, 0],
   gearVertex p width 4 1 ![-c 0, -s 0, 0],
   gearVertex p width 6 (-1) ![-c 4, -s 4, 0],
   gearVertex p width 6 1 ![-c 4, -s 4, 0]]

/-- The points `p[7]` of tooth `i` for the parameters of `create_gear`. -/
def gearPoints [Field α] (sincos : α → α × α) (pi inner_radius outer_radius : α)
    (teeth : Int) (tooth_depth : α) (i : Nat) : Fin 7 → point α :=
  tooth_points inner_radius (outer_radius - tooth_depth / 2) (outer_radius + tooth_depth / 2)
    (fun k => (tooth_sincos sincos pi (2 * pi / (teeth : α) / 4) teeth i k).1)
    (fun k => (tooth_sincos sincos pi (2 * pi / (teeth : α) / 4) teeth i k).2)

/-- The seven strips of one iteration of the loop, in the order of the loop
body, for the locals `r0`, `r1`, `r2`, `da` of `create_gear`. -/
def toothStripsOf [Field α] (sincos : α → α × α) (pi r0 r1 r2 da width : α) (teeth : Int)
    (i : Nat) : List (List (GearVertex α)) :=
  let s : Fin 5 → α := fun k => (tooth_sincos sincos pi da teeth i k).1
  let c : Fin 5 → α := fun k => (tooth_sincos sincos pi da teeth i k).2
  let p := tooth_points r0 r1 r2 s c
  [frontVerts p width, backVerts p width,
   quadVerts p width 0 2, quadVerts p width 1 0, quadVerts p width 3 1, quadVerts p width 5 3,
   innerVerts p s c width]

/-- The seven strips of tooth `i` for the parameters of `create_gear`. -/
def toothStrips [Field α] (sincos : α → α × α) (pi inner_radius outer_radius width : α)
    (teeth : Int) (tooth_depth : α) (i : Nat) : List (List (GearVertex α)) :=
  toothStripsOf sincos pi inner_radius (outer_radius - tooth_depth / 2)
    (outer_radius + tooth_depth / 2) (2 * pi / (teeth : α) / 4) width teeth i

/-- The vertices written after the first `k` teeth. -/
def gearVertices [Field α] (sincos : α → α × α) (pi inner_radius outer_radius width : α)
    (teeth : Int) (tooth_depth : α) (k : Nat) : List (GearVertex α) :=
  (List.range k).foldl
    (fun w i =>
      (toothStrips sincos pi inner_radius outer_radius width teeth tooth_depth i).foldl
        joinStrip w) []

/-- The builder state in which the vertices `w` have been written into an
array of `L` slots, the rest still zero from `calloc`. -/
def bufState [Zero α] (L c : Nat) (n : Fin 3 → α) (w : List (GearVertex α)) : GearState α :=
  { vertices := w ++ List.replicate (L - w.length) (fun _ => 0)
    v := w.length
    cur_strip_start := c
    normal := n }

/-- The two slots that `START_STRIP` skips when something was written before. -/
def restartPad [Zero α] (w : List (GearVertex α)) : List (GearVertex α) :=
  match w with
  | [] => []
  | _ :: _ => [fun _ => 0, fun _ => 0]

/-- The offset, within the 48 slots of a tooth, of the first real vertex of
its strip number `j` (0 to 6, in the order of the loop body). -/
def stripOffset (j : Nat) : Nat := [0, 9, 18, 24, 30, 36, 42].getD j 0

/-- The number of real vertices of strip number `j` of a tooth. -/
def stripLength (j : Nat) : Nat := [7, 7, 4, 4, 4, 4, 4].getD j 0

/-- The index of the first real vertex of strip `j` of tooth `i`. -/
def stripFirstReal (i j : Nat) : Nat := 48 * i + stripOffset j

/-- The value of `cur_strip_start` for strip `j` of tooth `i`: two slots before
its first real vertex, except for the first strip of the first tooth. -/
def stripStartIndex (i j : Nat) : Nat :=
  if i = 0 ∧ j = 0 then 0 else 48 * i + stripOffset j - 2

/-- The dot product of the edge normal of the profile edge `p1`, `p2` with the
outward radial direction at the edge, the vector from the gear axis to the
midpoint of the two profile points (its z-component is 0). -/
def edgeDot [Field α] (p : Fin 7 → point α) (p1 p2 : Fin 7) : α :=
  edgeNormal p p1 p2 0 * (((p p1).x + (p p2).x) / 2)
    + edgeNormal p p1 p2 1 * (((p p1).y + (p p2).y) / 2)
    + edgeNormal p p1 p2 2 * 0

/-- The profile edges of the four outer face quads, in the order of the loop
body: `QUAD_WITH_NORMAL(0, 2)`, `(1, 0)`, `(3, 1)`, `(5, 3)`. -/
def quadEdge (q : Nat) : Fin 7 × Fin 7 :=
  [((0 : Fin 7), (2 : Fin 7)), (1, 0), (3, 1), (5, 3)].getD q (0, 2)

end GearList

/-! ## Helper lemmas: matrices -/

section MatrixLemmas

theorem vec16_apply {α : Type} (a0 a1 a2 a3 a4 a5 a6 a7 a8 a9 a10 a11 a12 a13 a14 a15 : α) :
    (![a0, a1, a2, a3, a4, a5, a6, a7, a8, a9, a10, a11, a12, a13, a14, a15] : Fin 16 → α) 0 = a0 ∧
    (![a0, a1, a2, a3, a4, a5, a6, a7, a8, a9, a10, a11, a12, a13, a14, a15] : Fin 16 → α) 1 = a1 ∧
    (![a0, a1, a2, a3, a4, a5, a6, a7, a8, a9, a10, a11, a12, a13, a14, a15] : Fin 16 → α) 2 = a2 ∧
    (![a0, a1, a2, a3, a4, a5, a6, a7, a8, a9, a10, a11, a12, a13, a14, a15] : Fin 16 → α) 3 = a3 ∧
    (![a0, a1, a2, a3, a4, a5, a6, a7, a8, a9, a10, a11, a12, a13, a14, a15] : Fin 16 → α) 4 = a4 ∧
    (![a0, a1, a2, a3, a4, a5, a6, a7, a8, a9, a10, a11, a12, a13, a14, a15] : Fin 16 → α) 5 = a5 ∧
    (![a0, a1, a2, a3, a4, a5, a6, a7, a8, a9, a10, a11, a12, a13, a14, a15] : Fin 16 → α) 6 = a6 ∧
    (![a0, a1, a2, a3, a4, a5, a6, a7, a8, a9, a10, a11, a12, a13, a14, a15] : Fin 16 → α) 7 = a7 ∧
    (![a0, a1, a2, a3, a4, a5, a6, a7, a8, a9, a10, a11, a12, a13, a14, a15] : Fin 16 → α) 8 = a8 ∧
    (![a0, a1, a2, a3, a4, a5, a6, a7, a8, a9, a10, a11, a12, a13, a14, a15] : Fin 16 → α) 9 = a9 ∧
    (![a0, a1, a2, a3, a4, a5, a6, a7, a8, a9, a10, a11, a12, a13, a14, a15] : Fin 16 → α) 10 = a10 ∧
    (![a0, a1, a2, a3, a4, a5, a6, a7, a8, a9, a10, a11, a12, a13, a14, a15] : Fin 16 → α) 11 = a11 ∧
    (![a0, a1, a2, a3, a4, a5, a6, a7, a8, a9, a10, a11, a12, a13, a14, a15] : Fin 16 → α) 12 = a12 ∧
    (![a0, a1, a2, a3, a4, a5, a6, a7, a8, a9, a10, a11, a12, a13, a14, a15] : Fin 16 → α) 13 = a13 ∧
    (![a0, a1, a2, a3, a4, a5, a6, a7, a8, a9, a10, a11, a12, a13, a14, a15] : Fin 16 → α) 14 = a14 ∧
    (![a0, a1, a2, a3, a4, a5, a6, a7, a8, a9, a10, a11, a12, a13, a14, a15] : Fin 16 → α) 15 = a15 :=
  ⟨rfl, rfl, rfl, rfl, rfl, rfl, rfl, rfl, rfl, rfl, rfl, rfl, rfl, rfl, rfl, rfl⟩

variable {α : Type}

theorem multiply_apply [CommRing α] (m n : Mat α) (i : Fin 16) :
    multiply m n i =
      n ⟨(i.val / 4) * 4 + 0, by omega⟩ * m ⟨i.val % 4 + 0 * 4, by omega⟩
      + n ⟨(i.val / 4) * 4 + 1, by omega⟩ * m ⟨i.val % 4 + 1 * 4, by omega⟩
      + n ⟨(i.val / 4) * 4 + 2, by omega⟩ * m ⟨i.val % 4 + 2 * 4, by omega⟩
      + n ⟨(i.val / 4) * 4 + 3, by omega⟩ * m ⟨i.val % 4 + 3 * 4, by omega⟩ := by
  simp [multiply, Fin.foldl_succ]

theorem toMatrix_multiply [CommRing α] (m n : Mat α) :
    toMatrix (multiply m n) = toMatrix m * toMatrix n := by
  ext r c
  fin_cases r <;> fin_cases c <;>
    simp [toMatrix, multiply_apply, Matrix.mul_apply, Fin.sum_univ_four,
      Fin.coe_ofNat_eq_mod] <;> ring

theorem toMatrix_injective {m n : Mat α} (h : toMatrix m = toMatrix n) : m = n := by
  funext i
  have key : i = ⟨4 * (⟨i.val / 4, by omega⟩ : Fin 4).val
      + (⟨i.val % 4, by omega⟩ : Fin 4).val, by simp; omega⟩ := by
    apply Fin.ext; simp; omega
  have := congrFun (congrFun h ⟨i.val % 4, by omega⟩) ⟨i.val / 4, by omega⟩
  simp only [toMatrix] at this
  rw [key]; exact this

theorem toMatrix_identity [CommRing α] : toMatrix (identity : Mat α) = 1 := by
  ext r c
  fin_cases r <;> fin_cases c <;> simp [toMatrix, identity, Fin.coe_ofNat_eq_mod, vec16_apply]

theorem multiply_identity_left [CommRing α] (m : Mat α) : multiply identity m = m := by
  apply toMatrix_injective
  rw [toMatrix_multiply, toMatrix_identity, one_mul]

theorem multiply_identity_right [CommRing α] (m : Mat α) : multiply m identity = m := by
  apply toMatrix_injective
  rw [toMatrix_multiply, toMatrix_identity, mul_one]


theorem toMatrix_translate [CommRing α] (m : Mat α) (x y z : α) :
    toMatrix (translate m x y z) = toMatrix m * translationMatrix x y z := by
  unfold translate
  rw [toMatrix_multiply]
  congr 1
  ext r c
  fin_cases r <;> fin_cases c <;>
    simp [toMatrix, translationMatrix, Fin.coe_ofNat_eq_mod, vec16_apply, Matrix.vecHead,
      Matrix.vecTail]

theorem toMatrix_rotate [CommRing α] (sincos : α → α × α) (m : Mat α) (a x y z : α) :
    toMatrix (rotate sincos m a x y z)
      = toMatrix m * rodriguesMatrix (sincos a).1 (sincos a).2 x y z := by
  unfold rotate
  rw [toMatrix_multiply]
  congr 1
  ext r c
  fin_cases r <;> fin_cases c <;>
    simp [toMatrix, rodriguesMatrix, embed3, rodrigues3, crossMatrix, Matrix.vecMulVec,
      Fin.coe_ofNat_eq_mod, vec16_apply] <;> ring

theorem transpose_apply (m : Mat α) (r c : Fin 4) :
    transpose m ⟨4 * r.val + c.val, by omega⟩ = m ⟨4 * c.val + r.val, by omega⟩ := by
  fin_cases r <;> fin_cases c <;> simp [transpose, vec16_apply]

theorem toMatrix_transpose (m : Mat α) :
    toMatrix (transpose m) = (toMatrix m).transpose := by
  ext r c
  simp only [toMatrix, Matrix.transpose_apply]
  exact transpose_apply m c r

theorem transpose_transpose (m : Mat α) : transpose (transpose m) = m := by
  funext i
  fin_cases i <;> simp [transpose, vec16_apply]


theorem embed3_mul [CommRing α] (a b : Matrix (Fin 3) (Fin 3) α) :
    embed3 a * embed3 b = embed3 (a * b) := by
  ext i j
  fin_cases i <;> fin_cases j <;>
    simp [embed3, Matrix.mul_apply, Fin.sum_univ_four, Fin.sum_univ_three,
      Fin.coe_ofNat_eq_mod]

theorem embed3_one [CommRing α] : embed3 (1 : Matrix (Fin 3) (Fin 3) α) = 1 := by
  ext i j
  fin_cases i <;> fin_cases j <;> simp [embed3, Fin.coe_ofNat_eq_mod]

theorem translationMatrix_mul_neg [CommRing α] (x y z : α) :
    translationMatrix x y z * translationMatrix (-x) (-y) (-z) = 1 := by
  ext i j
  fin_cases i <;> fin_cases j <;>
    simp [translationMatrix, Matrix.mul_apply, Fin.sum_univ_four, Matrix.vecHead,
      Matrix.vecTail]

theorem translationMatrix_neg_mul [CommRing α] (x y z : α) :
    translationMatrix (-x) (-y) (-z) * translationMatrix x y z = 1 := by
  have := translationMatrix_mul_neg (-x) (-y) (-z)
  simpa using this

theorem toMatrix_of_bottom_row [CommRing α] (m : Mat α)
    (h3 : m 3 = 0) (h7 : m 7 = 0) (h11 : m 11 = 0) (h15 : m 15 = 1) :
    toMatrix m = translationMatrix (m 12) (m 13) (m 14) * embed3 (upper3 m) := by
  ext i j
  fin_cases i <;> fin_cases j <;>
    simp [toMatrix, translationMatrix, embed3, upper3, Matrix.mul_apply, Fin.sum_univ_four,
      Matrix.vecHead, Matrix.vecTail, Fin.coe_ofNat_eq_mod, h3, h7, h11, h15]

theorem embed3_transpose [CommRing α] (a : Matrix (Fin 3) (Fin 3) α) :
    (embed3 a).transpose = embed3 a.transpose := by
  ext i j
  fin_cases i <;> fin_cases j <;> simp [embed3, Fin.coe_ofNat_eq_mod]

theorem toMatrix_update_identity [CommRing α] (a b c : α) :
    toMatrix (Function.update (Function.update (Function.update (identity : Mat α) 12 a) 13 b)
      14 c) = translationMatrix a b c := by
  ext i j
  fin_cases i <;> fin_cases j <;>
    simp [toMatrix, translationMatrix, identity, Function.update_apply, Fin.coe_ofNat_eq_mod,
      vec16_apply, Matrix.vecHead, Matrix.vecTail]

theorem toMatrix_zero_translation [CommRing α] (m : Mat α)
    (h3 : m 3 = 0) (h7 : m 7 = 0) (h11 : m 11 = 0) (h15 : m 15 = 1) :
    toMatrix (Function.update (Function.update (Function.update m 14 0) 13 0) 12 0)
      = embed3 (upper3 m) := by
  ext i j
  fin_cases i <;> fin_cases j <;>
    simp [toMatrix, embed3, upper3, Function.update_apply, Fin.coe_ofNat_eq_mod,
      h3, h7, h11, h15]

theorem toMatrix_invert [CommRing α] (m : Mat α)
    (h3 : m 3 = 0) (h7 : m 7 = 0) (h11 : m 11 = 0) (h15 : m 15 = 1) :
    toMatrix (invert m)
      = embed3 (upper3 m).transpose * translationMatrix (-m 12) (-m 13) (-m 14) := by
  unfold invert
  simp only []
  rw [toMatrix_multiply, toMatrix_transpose, toMatrix_update_identity,
    toMatrix_zero_translation m h3 h7 h11 h15, embed3_transpose]


theorem invert_mul_self [CommRing α] {m : Mat α} (h : IsRigid m) :
    toMatrix (invert m) * toMatrix m = 1 := by
  obtain ⟨ho, h3, h7, h11, h15⟩ := h
  have ho' : (upper3 m).transpose * upper3 m = 1 := Matrix.mul_eq_one_comm.mp ho
  rw [toMatrix_invert m h3 h7 h11 h15]
  rw [toMatrix_of_bottom_row m h3 h7 h11 h15]
  rw [Matrix.mul_assoc, ← Matrix.mul_assoc (translationMatrix (-m 12) (-m 13) (-m 14)),
    translationMatrix_neg_mul, Matrix.one_mul, embed3_mul, ho', embed3_one]

theorem self_mul_invert [CommRing α] {m : Mat α} (h : IsRigid m) :
    toMatrix m * toMatrix (invert m) = 1 := by
  obtain ⟨ho, h3, h7, h11, h15⟩ := h
  rw [toMatrix_invert m h3 h7 h11 h15]
  rw [toMatrix_of_bottom_row m h3 h7 h11 h15]
  rw [Matrix.mul_assoc, ← Matrix.mul_assoc (embed3 (upper3 m)), embed3_mul, ho, embed3_one,
    Matrix.one_mul, translationMatrix_mul_neg]

theorem upper3_invert [CommRing α] (m : Mat α) : upper3 (invert m) = (upper3 m).transpose := by
  ext i j
  fin_cases i <;> fin_cases j <;>
    simp [upper3, invert, multiply_apply, transpose, identity, Function.update_apply,
      Fin.coe_ofNat_eq_mod, vec16_apply]

theorem invert_bottom_row [CommRing α] (m : Mat α) :
    invert m 3 = 0 ∧ invert m 7 = 0 ∧ invert m 11 = 0 ∧ invert m 15 = m 15 := by
  refine ⟨?_, ?_, ?_, ?_⟩ <;>
    simp [invert, multiply_apply, transpose, identity, Function.update_apply,
      Fin.coe_ofNat_eq_mod, vec16_apply]

theorem isRigid_invert [CommRing α] {m : Mat α} (h : IsRigid m) : IsRigid (invert m) := by
  obtain ⟨ho, _, _, _, h15⟩ := h
  obtain ⟨e3, e7, e11, e15⟩ := invert_bottom_row m
  refine ⟨?_, e3, e7, e11, e15.trans h15⟩
  rw [upper3_invert, Matrix.transpose_transpose]
  exact Matrix.mul_eq_one_comm.mp ho

theorem invert_invert [CommRing α] {m : Mat α} (h : IsRigid m) : invert (invert m) = m := by
  apply toMatrix_injective
  have h1 := invert_mul_self (isRigid_invert h)
  have h2 := invert_mul_self h
  calc toMatrix (invert (invert m))
      = toMatrix (invert (invert m)) * (toMatrix (invert m) * toMatrix m) := by
        rw [h2, Matrix.mul_one]
    _ = toMatrix m := by rw [← Matrix.mul_assoc, h1, Matrix.one_mul]

theorem identity_apply [CommRing α] :
    (identity : Mat α) 0 = 1 ∧
    (identity : Mat α) 1 = 0 ∧
    (identity : Mat α) 2 = 0 ∧
    (identity : Mat α) 3 = 0 ∧
    (identity : Mat α) 4 = 0 ∧
    (identity : Mat α) 5 = 1 ∧
    (identity : Mat α) 6 = 0 ∧
    (identity : Mat α) 7 = 0 ∧
    (identity : Mat α) 8 = 0 ∧
    (identity : Mat α) 9 = 0 ∧
    (identity : Mat α) 10 = 1 ∧
    (identity : Mat α) 11 = 0 ∧
    (identity : Mat α) 12 = 0 ∧
    (identity : Mat α) 13 = 0 ∧
    (identity : Mat α) 14 = 0 ∧
    (identity : Mat α) 15 = 1 :=
  @vec16_apply α 1 0 0 0 0 1 0 0 0 0 1 0 0 0 0 1

theorem isRigid_identity [CommRing α] : IsRigid (identity : Mat α) := by
  refine ⟨?_, ?_, ?_, ?_, ?_⟩
  · ext i j
    fin_cases i <;> fin_cases j <;>
      simp [upper3, identity_apply, Matrix.mul_apply, Fin.sum_univ_three,
        Fin.coe_ofNat_eq_mod]
  all_goals simp [identity_apply]

theorem upper3_translate [CommRing α] (m : Mat α) (x y z : α) :
    upper3 (translate m x y z) = upper3 m := by
  ext i j
  fin_cases i <;> fin_cases j <;>
    simp [upper3, translate, multiply_apply, Fin.coe_ofNat_eq_mod, vec16_apply]

theorem isRigid_translate [CommRing α] {m : Mat α} (h : IsRigid m) (x y z : α) :
    IsRigid (translate m x y z) := by
  obtain ⟨ho, h3, h7, h11, h15⟩ := h
  refine ⟨by rw [upper3_translate]; exact ho, ?_, ?_, ?_, ?_⟩ <;>
    simp [translate, multiply_apply, Fin.coe_ofNat_eq_mod, vec16_apply, h3, h7, h11, h15]

theorem upper3_rotate [CommRing α] (sincos : α → α × α) (m : Mat α) (a x y z : α) :
    upper3 (rotate sincos m a x y z)
      = upper3 m * rodrigues3 (sincos a).1 (sincos a).2 x y z := by
  ext i j
  fin_cases i <;> fin_cases j <;>
    simp [upper3, rotate, multiply_apply, rodrigues3, crossMatrix, Matrix.vecMulVec,
      Matrix.mul_apply, Fin.sum_univ_three, Fin.coe_ofNat_eq_mod, vec16_apply] <;> ring

theorem rodrigues3_orthogonal [CommRing α] (s c x y z : α)
    (hsc : s ^ 2 + c ^ 2 = 1) (hk : x ^ 2 + y ^ 2 + z ^ 2 = 1) :
    rodrigues3 s c x y z * (rodrigues3 s c x y z).transpose = 1 := by
  ext i j
  fin_cases i <;> fin_cases j <;>
    simp [rodrigues3, crossMatrix, Matrix.vecMulVec, Matrix.mul_apply, Fin.sum_univ_three,
      Matrix.transpose_apply, Matrix.vecHead, Matrix.vecTail]
  · linear_combination (s ^ 2 + (1 - c) ^ 2 * x * x) * hk + (1 - x * x) * hsc
  · linear_combination ((1 - c) ^ 2 * x * y) * hk + (- (x * y)) * hsc
  · linear_combination ((1 - c) ^ 2 * x * z) * hk + (- (x * z)) * hsc
  · linear_combination ((1 - c) ^ 2 * y * x) * hk + (- (y * x)) * hsc
  · linear_combination (s ^ 2 + (1 - c) ^ 2 * y * y) * hk + (1 - y * y) * hsc
  · linear_combination ((1 - c) ^ 2 * y * z) * hk + (- (y * z)) * hsc
  · linear_combination ((1 - c) ^ 2 * z * x) * hk + (- (z * x)) * hsc
  · linear_combination ((1 - c) ^ 2 * z * y) * hk + (- (z * y)) * hsc
  · linear_combination (s ^ 2 + (1 - c) ^ 2 * z * z) * hk + (1 - z * z) * hsc

theorem isRigid_rotate [CommRing α] {m : Mat α} (h : IsRigid m) (sincos : α → α × α) (a x y z : α)
    (hsc : (sincos a).1 ^ 2 + (sincos a).2 ^ 2 = 1) (hk : x ^ 2 + y ^ 2 + z ^ 2 = 1) :
    IsRigid (rotate sincos m a x y z) := by
  obtain ⟨ho, h3, h7, h11, h15⟩ := h
  refine ⟨?_, ?_, ?_, ?_, ?_⟩
  · rw [upper3_rotate, Matrix.transpose_mul, Matrix.mul_assoc,
      ← Matrix.mul_assoc (rodrigues3 _ _ x y z), rodrigues3_orthogonal _ _ x y z hsc hk,
      Matrix.one_mul, ho]
  all_goals
    simp [rotate, multiply_apply, Fin.coe_ofNat_eq_mod, vec16_apply, h3, h7, h11, h15]

theorem isRigid_applyOps [CommRing α] (sincos : α → α × α)
    (hsc : ∀ a, (sincos a).1 ^ 2 + (sincos a).2 ^ 2 = 1) (ops : List (Op α))
    (hops : ∀ op ∈ ops, Op.UnitAxis op) {m : Mat α} (h : IsRigid m) :
    IsRigid (applyOps sincos ops m) := by
  induction ops generalizing m with
  | nil => simpa [applyOps] using h
  | cons op rest ih =>
    have hrest : ∀ o ∈ rest, Op.UnitAxis o := fun o ho => hops o (List.mem_cons_of_mem _ ho)
    have hop : Op.UnitAxis op := hops op (List.mem_cons_self _ _)
    have hstep : IsRigid (Op.apply sincos m op) := by
      cases op with
      | translate x y z => exact isRigid_translate h x y z
      | rotate a x y z => exact isRigid_rotate h sincos a x y z (hsc a) hop
    simpa [applyOps] using ih hrest hstep


theorem rodriguesMatrix_zero_angle [CommRing α] (x y z : α) :
    rodriguesMatrix (0 : α) 1 x y z = 1 := by
  ext i j
  fin_cases i <;> fin_cases j <;>
    simp [rodriguesMatrix, embed3, rodrigues3, crossMatrix, Matrix.vecMulVec,
      Fin.coe_ofNat_eq_mod]

theorem rigidExample_apply :
    rigidExample 0 = 0 ∧ rigidExample 1 = 1 ∧ rigidExample 2 = 0 ∧ rigidExample 3 = 0 ∧
    rigidExample 4 = -1 ∧ rigidExample 5 = 0 ∧ rigidExample 6 = 0 ∧ rigidExample 7 = 0 ∧
    rigidExample 8 = 0 ∧ rigidExample 9 = 0 ∧ rigidExample 10 = 1 ∧ rigidExample 11 = 0 ∧
    rigidExample 12 = 1 ∧ rigidExample 13 = 2 ∧ rigidExample 14 = 3 ∧ rigidExample 15 = 1 :=
  @vec16_apply ℚ 0 1 0 0 (-1) 0 0 0 0 0 1 0 1 2 3 1

theorem isRigid_rigidExample : IsRigid rigidExample := by
  refine ⟨?_, ?_, ?_, ?_, ?_⟩
  · ext i j
    fin_cases i <;> fin_cases j <;>
      simp [upper3, rigidExample_apply, Matrix.mul_apply, Fin.sum_univ_three,
        Fin.coe_ofNat_eq_mod]
  all_goals simp [rigidExample_apply]

end MatrixLemmas

/-! ## Helper lemmas: the strip-emission loop -/

section GearLemmas

variable {α : Type}

theorem at_SET_NORMAL {L c v : Nat} {st : GearState α} (h : At L c v st) (x y z : α) :
    At L c v (SET_NORMAL x y z st) := h

theorem at_START_STRIP {L c v : Nat} {st : GearState α} (h : At L c v st) :
    At L v (if v = 0 then 0 else v + 2) (START_STRIP st) := by
  obtain ⟨hl, _, hv⟩ := h
  unfold START_STRIP At
  by_cases h0 : v = 0
  · subst hv; simp [h0, hl]
  · subst hv; simp [h0, hl]

theorem step_bind {x : Except GearError (GearState α)}
    {rest : GearState α → Except GearError (GearState α)} {Q : GearState α → Prop}
    (s1 : GearState α) (h1 : x = .ok s1) (h2 : ∃ st', rest s1 = .ok st' ∧ Q st') :
    ∃ st', (x >>= rest) = .ok st' ∧ Q st' := by
  subst h1
  exact h2

theorem vert_at {L c v : Nat} {st : GearState α} (h : At L c v st) (hv : v < L)
    (x y z : α) (n : Fin 3 → α) :
    ∃ s1, vert st x y z n = .ok s1 ∧ At L c (v + 1) s1 := by
  obtain ⟨hl, hc, hv'⟩ := h
  have hlt : st.v < st.vertices.length := by omega
  refine ⟨_, if_pos hlt, ?_, hc, ?_⟩
  · simp [hl]
  · simp [hv']

theorem step_GEAR_VERT [Field α] {L c v : Nat} {st : GearState α} (h : At L c v st)
    (hv : v < L) (p : Fin 7 → point α) (width : α) (pt : Fin 7) (sign : α)
    (rest : GearState α → Except GearError (GearState α)) (Q : GearState α → Prop)
    (hrest : ∀ s1, At L c (v + 1) s1 → ∃ st', rest s1 = .ok st' ∧ Q st') :
    ∃ st', (GEAR_VERT p width pt sign st >>= rest) = .ok st' ∧ Q st' := by
  obtain ⟨s1, e1, a1⟩ := vert_at h hv (p pt).x (p pt).y (sign * width * (1 / 2)) st.normal
  exact step_bind s1 e1 (hrest s1 a1)

theorem memcpyVertex_ok (buf : List (GearVertex α)) (dst src : Nat)
    (hd : dst < buf.length) (hs : src < buf.length) :
    ∃ b, memcpyVertex buf dst src = .ok b ∧ b.length = buf.length := by
  unfold memcpyVertex
  rw [List.getElem?_eq_getElem hs]
  exact ⟨_, if_pos hd, by simp⟩

theorem END_STRIP_at {L c v : Nat} {st : GearState α} (h : At L c v st)
    (hc : c = 0 ∨ c + 2 < L) :
    ∃ st', END_STRIP st = .ok st' ∧ At L c v st' := by
  obtain ⟨hl, hcs, hv⟩ := h
  unfold END_STRIP
  by_cases h0 : st.cur_strip_start = 0
  · exact ⟨st, by simp [h0]; rfl, hl, hcs, hv⟩
  · have hlt : c + 2 < L := by
      rcases hc with hc | hc
      · omega
      · exact hc
    obtain ⟨b1, e1, l1⟩ := memcpyVertex_ok st.vertices st.cur_strip_start
      (st.cur_strip_start - 1) (by omega) (by omega)
    obtain ⟨b2, e2, l2⟩ := memcpyVertex_ok b1 (st.cur_strip_start + 1)
      (st.cur_strip_start + 2) (by omega) (by omega)
    refine ⟨{ st with vertices := b2 }, ?_, ?_, hcs, hv⟩
    · rw [if_pos h0, e1]
      show (memcpyVertex b1 (st.cur_strip_start + 1) (st.cur_strip_start + 2) >>= _) = _
      rw [e2]
      rfl
    · show b2.length = L
      omega

theorem strip_front_face_at [Field α] {L c v : Nat} {st : GearState α} (h : At L c v st)
    (hv : stripStart v + 7 ≤ L) (p : Fin 7 → point α) (width : α) :
    ∃ st', strip_front_face p width st = .ok st' ∧ At L v (stripStart v + 7) st' := by
  have h0 := at_SET_NORMAL (at_START_STRIP h) (0 : α) 0 1
  have hc : v = 0 ∨ v + 2 < L := by unfold stripStart at hv; split at hv <;> omega
  unfold strip_front_face
  refine step_GEAR_VERT h0 (by unfold stripStart at hv; omega) _ _ _ _ _ _ (fun s1 h1 => ?_)
  refine step_GEAR_VERT h1 (by unfold stripStart at hv; omega) _ _ _ _ _ _ (fun s2 h2 => ?_)
  refine step_GEAR_VERT h2 (by unfold stripStart at hv; omega) _ _ _ _ _ _ (fun s3 h3 => ?_)
  refine step_GEAR_VERT h3 (by unfold stripStart at hv; omega) _ _ _ _ _ _ (fun s4 h4 => ?_)
  refine step_GEAR_VERT h4 (by unfold stripStart at hv; omega) _ _ _ _ _ _ (fun s5 h5 => ?_)
  refine step_GEAR_VERT h5 (by unfold stripStart at hv; omega) _ _ _ _ _ _ (fun s6 h6 => ?_)
  refine step_GEAR_VERT h6 (by unfold stripStart at hv; omega) _ _ _ _ _ _ (fun s7 h7 => ?_)
  exact END_STRIP_at h7 hc

theorem strip_back_face_at [Field α] {L c v : Nat} {st : GearState α} (h : At L c v st)
    (hv : stripStart v + 7 ≤ L) (p : Fin 7 → point α) (width : α) :
    ∃ st', strip_back_face p width st = .ok st' ∧ At L v (stripStart v + 7) st' := by
  have h0 := at_SET_NORMAL (at_START_STRIP h) (0 : α) 0 (-1)
  have hc : v = 0 ∨ v + 2 < L := by unfold stripStart at hv; split at hv <;> omega
  unfold strip_back_face
  refine step_GEAR_VERT h0 (by unfold stripStart at hv; omega) _ _ _ _ _ _ (fun s1 h1 => ?_)
  refine step_GEAR_VERT h1 (by unfold stripStart at hv; omega) _ _ _ _ _ _ (fun s2 h2 => ?_)
  refine step_GEAR_VERT h2 (by unfold stripStart at hv; omega) _ _ _ _ _ _ (fun s3 h3 => ?_)
  refine step_GEAR_VERT h3 (by unfold stripStart at hv; omega) _ _ _ _ _ _ (fun s4 h4 => ?_)
  refine step_GEAR_VERT h4 (by unfold stripStart at hv; omega) _ _ _ _ _ _ (fun s5 h5 => ?_)
  refine step_GEAR_VERT h5 (by unfold stripStart at hv; omega) _ _ _ _ _ _ (fun s6 h6 => ?_)
  refine step_GEAR_VERT h6 (by unfold stripStart at hv; omega) _ _ _ _ _ _ (fun s7 h7 => ?_)
  exact END_STRIP_at h7 hc

theorem QUAD_WITH_NORMAL_at [Field α] {L c v : Nat} {st : GearState α} (h : At L c v st)
    (hv : v + 4 ≤ L) (p : Fin 7 → point α) (width : α) (p1 p2 : Fin 7) :
    ∃ st', QUAD_WITH_NORMAL p width p1 p2 st = .ok st' ∧ At L c (v + 4) st' := by
  have h0 := at_SET_NORMAL h ((p p1).y - (p p2).y) (-((p p1).x - (p p2).x)) 0
  unfold QUAD_WITH_NORMAL
  refine step_GEAR_VERT h0 (by omega) _ _ _ _ _ _ (fun s1 h1 => ?_)
  refine step_GEAR_VERT h1 (by omega) _ _ _ _ _ _ (fun s2 h2 => ?_)
  refine step_GEAR_VERT h2 (by omega) _ _ _ _ _ _ (fun s3 h3 => ?_)
  refine step_GEAR_VERT h3 (by omega) _ _ _ _ _ _ (fun s4 h4 => ?_)
  exact ⟨s4, rfl, h4⟩

theorem strip_outer_face_at [Field α] {L c v : Nat} {st : GearState α} (h : At L c v st)
    (hv : stripStart v + 4 ≤ L) (p : Fin 7 → point α) (width : α) (p1 p2 : Fin 7) :
    ∃ st', strip_outer_face p width p1 p2 st = .ok st' ∧ At L v (stripStart v + 4) st' := by
  have h0 := at_START_STRIP h
  have hc : v = 0 ∨ v + 2 < L := by unfold stripStart at hv; split at hv <;> omega
  obtain ⟨s1, e1, h1⟩ := QUAD_WITH_NORMAL_at h0 (by unfold stripStart at hv; omega)
    p width p1 p2
  unfold strip_outer_face
  exact step_bind s1 e1 (END_STRIP_at h1 hc)

theorem strip_inner_face_at [Field α] {L c v : Nat} {st : GearState α} (h : At L c v st)
    (hv : stripStart v + 4 ≤ L) (p : Fin 7 → point α) (s c' : Fin 5 → α) (width : α) :
    ∃ st', strip_inner_face p s c' width st = .ok st' ∧ At L v (stripStart v + 4) st' := by
  have h0 := at_SET_NORMAL (at_START_STRIP h) (-c' 0) (-s 0) 0
  have hc : v = 0 ∨ v + 2 < L := by unfold stripStart at hv; split at hv <;> omega
  unfold strip_inner_face
  refine step_GEAR_VERT h0 (by unfold stripStart at hv; omega) _ _ _ _ _ _ (fun s1 h1 => ?_)
  refine step_GEAR_VERT h1 (by unfold stripStart at hv; omega) _ _ _ _ _ _ (fun s2 h2 => ?_)
  have h2' := at_SET_NORMAL h2 (-c' 4) (-s 4) 0
  refine step_GEAR_VERT h2' (by unfold stripStart at hv; omega) _ _ _ _ _ _ (fun s3 h3 => ?_)
  refine step_GEAR_VERT h3 (by unfold stripStart at hv; omega) _ _ _ _ _ _ (fun s4 h4 => ?_)
  exact END_STRIP_at h4 hc

theorem At.cast {L c v w : Nat} {st : GearState α} (h : At L c v st) (hw : v = w) :
    At L c w st := hw ▸ h

theorem stripStart_pos {w : Nat} (hw : 0 < w) : stripStart w = w + 2 := by
  unfold stripStart
  rw [if_neg (by omega)]

theorem tooth_at [Field α] {L c v : Nat} {st : GearState α} (h : At L c v st)
    (hv : toothEnd v ≤ L) (sincos : α → α × α) (pi r0 r1 r2 da width : α) (teeth : Int)
    (i : Nat) :
    ∃ st', tooth sincos pi r0 r1 r2 da width teeth i st = .ok st' ∧
      ∃ c', At L c' (toothEnd v) st' := by
  have e0 : toothEnd v = stripStart v + 46 := by
    unfold stripStart toothEnd; split <;> omega
  rw [e0] at hv ⊢
  unfold tooth
  obtain ⟨s1, e1, h1⟩ := strip_front_face_at h (by omega) (tooth_points r0 r1 r2
    (fun k => (tooth_sincos sincos pi da teeth i k).1)
    (fun k => (tooth_sincos sincos pi da teeth i k).2)) width
  refine step_bind s1 e1 ?_
  obtain ⟨s2, e2, h2⟩ := strip_back_face_at h1 (by rw [stripStart_pos (by omega)]; omega)
    (tooth_points r0 r1 r2 (fun k => (tooth_sincos sincos pi da teeth i k).1)
      (fun k => (tooth_sincos sincos pi da teeth i k).2)) width
  replace h2 := h2.cast (show _ = stripStart v + 16 by rw [stripStart_pos (by omega)])
  refine step_bind s2 e2 ?_
  obtain ⟨s3, e3, h3⟩ := strip_outer_face_at h2 (by rw [stripStart_pos (by omega)]; omega)
    (tooth_points r0 r1 r2 (fun k => (tooth_sincos sincos pi da teeth i k).1)
      (fun k => (tooth_sincos sincos pi da teeth i k).2)) width 0 2
  replace h3 := h3.cast (show _ = stripStart v + 22 by rw [stripStart_pos (by omega)])
  refine step_bind s3 e3 ?_
  obtain ⟨s4, e4, h4⟩ := strip_outer_face_at h3 (by rw [stripStart_pos (by omega)]; omega)
    (tooth_points r0 r1 r2 (fun k => (tooth_sincos sincos pi da teeth i k).1)
      (fun k => (tooth_sincos sincos pi da teeth i k).2)) width 1 0
  replace h4 := h4.cast (show _ = stripStart v + 28 by rw [stripStart_pos (by omega)])
  refine step_bind s4 e4 ?_
  obtain ⟨s5, e5, h5⟩ := strip_outer_face_at h4 (by rw [stripStart_pos (by omega)]; omega)
    (tooth_points r0 r1 r2 (fun k => (tooth_sincos sincos pi da teeth i k).1)
      (fun k => (tooth_sincos sincos pi da teeth i k).2)) width 3 1
  replace h5 := h5.cast (show _ = stripStart v + 34 by rw [stripStart_pos (by omega)])
  refine step_bind s5 e5 ?_
  obtain ⟨s6, e6, h6⟩ := strip_outer_face_at h5 (by rw [stripStart_pos (by omega)]; omega)
    (tooth_points r0 r1 r2 (fun k => (tooth_sincos sincos pi da teeth i k).1)
      (fun k => (tooth_sincos sincos pi da teeth i k).2)) width 5 3
  replace h6 := h6.cast (show _ = stripStart v + 40 by rw [stripStart_pos (by omega)])
  refine step_bind s6 e6 ?_
  obtain ⟨s7, e7, h7⟩ := strip_inner_face_at h6 (by rw [stripStart_pos (by omega)]; omega)
    (tooth_points r0 r1 r2 (fun k => (tooth_sincos sincos pi da teeth i k).1)
      (fun k => (tooth_sincos sincos pi da teeth i k).2))
    (fun k => (tooth_sincos sincos pi da teeth i k).1)
    (fun k => (tooth_sincos sincos pi da teeth i k).2) width
  exact ⟨s7, e7, _, h7.cast (by rw [stripStart_pos (by omega)])⟩

theorem loopEnd_succ (k : Nat) : loopEnd (k + 1) = 48 * k + 46 := by
  unfold loopEnd
  rw [if_neg (by omega)]
  omega

theorem toothEnd_loopEnd (k : Nat) : toothEnd (loopEnd k) = loopEnd (k + 1) := by
  rw [loopEnd_succ]
  by_cases hk : k = 0
  · subst hk; rfl
  · have h1 : loopEnd k = 48 * k - 2 := by simp only [loopEnd]; rw [if_neg hk]
    have h2 : ¬ (48 * k - 2 = 0) := by omega
    rw [h1]
    simp only [toothEnd]
    rw [if_neg h2]
    omega

theorem loopEnd_le_succ (k : Nat) : loopEnd k ≤ loopEnd (k + 1) := by
  rw [loopEnd_succ]
  unfold loopEnd
  split <;> omega

theorem create_gear_loop_at [Field α] (sincos : α → α × α) (pi r0 r1 r2 da width : α)
    (teeth : Int) {L : Nat} {st : GearState α} (h : At L 0 0 st) (k : Nat)
    (hk : loopEnd k ≤ L) :
    ∃ st', (List.range k).foldlM
        (fun st i => tooth sincos pi r0 r1 r2 da width teeth i st) st = .ok st' ∧
      ∃ c', At L c' (loopEnd k) st' := by
  induction k with
  | zero => exact ⟨st, rfl, 0, h⟩
  | succ k ih =>
    obtain ⟨s1, e1, c1, h1⟩ := ih ((loopEnd_le_succ k).trans hk)
    obtain ⟨s2, e2, c2, h2⟩ := tooth_at h1 (by rw [toothEnd_loopEnd]; exact hk)
      sincos pi r0 r1 r2 da width teeth k
    refine ⟨s2, ?_, c2, h2.cast (toothEnd_loopEnd k)⟩
    rw [List.range_succ, List.foldlM_append, e1]
    simpa using e2


theorem create_gear_loop_ok [Field α] (sincos : α → α × α) (pi r0 r1 r2 da width : α)
    (teeth : Int) (h : 1 ≤ teeth) :
    ∃ st,
      create_gear_loop sincos pi r0 r1 r2 da width teeth
          (create_gear_init (VERTICES_PER_TOOTH + (VERTICES_PER_TOOTH + 2) * (teeth - 1)))
        = .ok st ∧
      (st.v : Int) = 46 + 48 * (teeth - 1) ∧ st.vertices.length = st.v := by
  obtain ⟨k, rfl⟩ : ∃ k : Nat, teeth = (k : Int) + 1 :=
    ⟨(teeth - 1).toNat, by omega⟩
  have hL : (VERTICES_PER_TOOTH + (VERTICES_PER_TOOTH + 2) * ((k : Int) + 1 - 1)).toNat
      = loopEnd (k + 1) := by
    rw [loopEnd_succ]
    simp only [VERTICES_PER_TOOTH]
    omega
  have hinit : At (loopEnd (k + 1)) 0 0 (create_gear_init
      (VERTICES_PER_TOOTH + (VERTICES_PER_TOOTH + 2) * ((k : Int) + 1 - 1)) : GearState α) := by
    refine ⟨?_, rfl, rfl⟩
    unfold create_gear_init
    rw [hL]
    exact List.length_replicate _ _
  obtain ⟨st, e, c, hlen, _, hv⟩ := create_gear_loop_at sincos pi r0 r1 r2 da width
    ((k : Int) + 1) hinit (k + 1) (le_refl _)
  have ht : ((k : Int) + 1).toNat = k + 1 := by omega
  refine ⟨st, ?_, ?_, ?_⟩
  · unfold create_gear_loop
    rw [ht]
    exact e
  · rw [hv, loopEnd_succ]
    push_cast
    ring
  · rw [hlen, hv]

end GearLemmas

/-! ## Helper lemmas: the contents of the vertex array -/

section GearContent

variable {α : Type}

theorem ok_bind {ε β γ : Type} (a : β) (f : β → Except ε γ) :
    (Except.ok a >>= f) = f a := rfl

theorem set_append_length {β : Type} (w : List β) (a x : β) (r : List β) :
    (w ++ a :: r).set w.length x = w ++ x :: r := by
  induction w with
  | nil => rfl
  | cons b w ih => simp [ih]

theorem getElem?_append_length {β : Type} (w : List β) (a : β) (r : List β) :
    (w ++ a :: r)[w.length]? = some a := by
  induction w with
  | nil => simp
  | cons b w ih => simpa using ih

theorem replicate_sub_cons {β : Type} (z : β) {k L : Nat} (h : k < L) :
    List.replicate (L - k) z = z :: List.replicate (L - (k + 1)) z := by
  obtain ⟨d, rfl⟩ : ∃ d, L = k + 1 + d := ⟨L - (k + 1), by omega⟩
  have e1 : k + 1 + d - k = d + 1 := by omega
  have e2 : k + 1 + d - (k + 1) = d := by omega
  rw [e1, e2, List.replicate_succ]

theorem bufState_congr [Zero α] (L c : Nat) (n : Fin 3 → α) {w w' : List (GearVertex α)}
    (h : w = w') : bufState L c n w = bufState L c n w' := by
  rw [h]

theorem SET_NORMAL_buf [Zero α] (L c : Nat) (n : Fin 3 → α) (w : List (GearVertex α))
    (x y z : α) : SET_NORMAL x y z (bufState L c n w) = bufState L c ![x, y, z] w := rfl

theorem vert_buf [Zero α] (L c : Nat) (n : Fin 3 → α) (w : List (GearVertex α))
    (hv : w.length < L) (x y z : α) (n' : Fin 3 → α) :
    vert (bufState L c n w) x y z n'
      = .ok (bufState L c n (w ++ [![x, y, z, n' 0, n' 1, n' 2]])) := by
  have hlen : (bufState L c n w).v < (bufState L c n w).vertices.length := by
    simp only [bufState, List.length_append, List.length_replicate]
    omega
  unfold vert
  rw [if_pos hlen]
  simp only [bufState]
  rw [replicate_sub_cons _ hv, set_append_length]
  simp [List.append_assoc]

theorem GEAR_VERT_buf [Field α] (L c : Nat) (n : Fin 3 → α) (w : List (GearVertex α))
    (hv : w.length < L) (p : Fin 7 → point α) (width : α) (pt : Fin 7) (sign : α) :
    GEAR_VERT p width pt sign (bufState L c n w)
      = .ok (bufState L c n (w ++ [gearVertex p width pt sign n])) :=
  vert_buf L c n w hv _ _ _ n

theorem restartPad_length [Zero α] (w : List (GearVertex α)) :
    (restartPad w).length = if w.length = 0 then 0 else 2 := by
  cases w <;> simp [restartPad]

theorem START_STRIP_buf [Zero α] (L c : Nat) (n : Fin 3 → α) (w : List (GearVertex α))
    (hv : w.length + (restartPad w).length ≤ L) :
    START_STRIP (bufState L c n w) = bufState L w.length n (w ++ restartPad w) := by
  cases w with
  | nil => simp [START_STRIP, bufState, restartPad]
  | cons a w =>
    have h2 : (a :: w).length + 2 ≤ L := by simpa [restartPad] using hv
    have h0 : (a :: w).length ≠ 0 := by simp
    simp only [START_STRIP, bufState, ne_eq, h0, not_false_eq_true, if_true, restartPad]
    rw [replicate_sub_cons _ (show (a :: w).length < L by omega),
      replicate_sub_cons _ (show (a :: w).length + 1 < L by omega)]
    simp [List.append_assoc]

theorem memcpyVertex_eq (buf : List (GearVertex α)) (dst src : Nat)
    (X Y U V : List (GearVertex α)) (s d : GearVertex α)
    (h1 : buf = X ++ s :: Y) (h2 : buf = U ++ d :: V)
    (hd : dst = U.length) (hs : src = X.length) :
    memcpyVertex buf dst src = .ok (U ++ s :: V) := by
  have hg : buf[src]? = some s := by rw [hs, h1]; exact getElem?_append_length X s Y
  have hl : dst < buf.length := by
    rw [hd, h2]; simp
  unfold memcpyVertex
  rw [hg]
  simp only []
  rw [if_pos hl, hd, h2, set_append_length]

theorem joinStrip_nil (s : List (GearVertex α)) : joinStrip [] s = s := rfl

theorem joinStrip_concat (w : List (GearVertex α)) (a b : GearVertex α)
    (r : List (GearVertex α)) :
    joinStrip (w ++ [a]) (b :: r) = w ++ a :: a :: b :: b :: r := by
  simp [joinStrip]

theorem restartPad_concat [Zero α] (w : List (GearVertex α)) (a : GearVertex α) :
    restartPad (w ++ [a]) = [fun _ => 0, fun _ => 0] := by
  cases w <;> rfl

theorem END_STRIP_buf [Zero α] (L : Nat) (n : Fin 3 → α) (w : List (GearVertex α))
    (b : GearVertex α) (r : List (GearVertex α)) :
    END_STRIP (bufState L w.length n (w ++ (restartPad w ++ b :: r)))
      = .ok (bufState L w.length n (joinStrip w (b :: r))) := by
  rcases List.eq_nil_or_concat w with rfl | ⟨w', a, rfl⟩
  · rfl
  · rw [List.concat_eq_append, joinStrip_concat, restartPad_concat]
    have hc : (bufState L (w' ++ [a]).length n
        (w' ++ [a] ++ ([fun _ => 0, fun _ => 0] ++ b :: r))).cur_strip_start ≠ 0 := by
      simp [bufState]
    unfold END_STRIP
    rw [if_pos hc]
    simp only [bufState]
    rw [memcpyVertex_eq _ _ _ w'
        ((fun _ => 0) :: (fun _ => 0) :: b :: r ++
          List.replicate (L - (w' ++ [a] ++ ([fun _ => 0, fun _ => 0] ++ b :: r)).length)
            (fun _ => 0))
        (w' ++ [a])
        ((fun _ => 0) :: b :: r ++
          List.replicate (L - (w' ++ [a] ++ ([fun _ => 0, fun _ => 0] ++ b :: r)).length)
            (fun _ => 0))
        a (fun _ => 0) (by simp) (by simp) rfl (by simp)]
    rw [ok_bind]
    rw [memcpyVertex_eq _ _ _ (w' ++ [a, a, fun _ => 0])
        (r ++ List.replicate (L - (w' ++ [a] ++ ([fun _ => 0, fun _ => 0] ++ b :: r)).length)
            (fun _ => 0))
        (w' ++ [a, a])
        (b :: r ++
          List.replicate (L - (w' ++ [a] ++ ([fun _ => 0, fun _ => 0] ++ b :: r)).length)
            (fun _ => 0))
        b (fun _ => 0) (by simp) (by simp) (by simp) (by simp)]
    rw [ok_bind]
    simp [pure, Except.pure]

theorem joinStrip_length [Zero α] (w : List (GearVertex α)) (b : GearVertex α)
    (r : List (GearVertex α)) :
    (joinStrip w (b :: r)).length = w.length + (restartPad w).length + (r.length + 1) := by
  rcases List.eq_nil_or_concat w with rfl | ⟨w', a, rfl⟩
  · simp [joinStrip_nil, restartPad]
  · rw [List.concat_eq_append, joinStrip_concat, restartPad_concat]
    simp
    omega

theorem strip_front_face_buf [Field α] (L c : Nat) (n : Fin 3 → α)
    (w : List (GearVertex α)) (p : Fin 7 → point α) (width : α)
    (h : (joinStrip w (frontVerts p width)).length ≤ L) :
    strip_front_face p width (bufState L c n w)
      = .ok (bufState L w.length ![0, 0, 1] (joinStrip w (frontVerts p width))) := by
  have hroom : w.length + (restartPad w).length + 7 ≤ L := by
    rw [frontVerts, joinStrip_length] at h
    simpa using h
  unfold strip_front_face
  dsimp only
  rw [START_STRIP_buf L c n w (by omega), SET_NORMAL_buf]
  rw [GEAR_VERT_buf _ _ _ _
    (by simp only [List.length_append, List.length_cons, List.length_nil]; omega),
    ok_bind]
  rw [GEAR_VERT_buf _ _ _ _
    (by simp only [List.length_append, List.length_cons, List.length_nil]; omega),
    ok_bind]
  rw [GEAR_VERT_buf _ _ _ _
    (by simp only [List.length_append, List.length_cons, List.length_nil]; omega),
    ok_bind]
  rw [GEAR_VERT_buf _ _ _ _
    (by simp only [List.length_append, List.length_cons, List.length_nil]; omega),
    ok_bind]
  rw [GEAR_VERT_buf _ _ _ _
    (by simp only [List.length_append, List.length_cons, List.length_nil]; omega),
    ok_bind]
  rw [GEAR_VERT_buf _ _ _ _
    (by simp only [List.length_append, List.length_cons, List.length_nil]; omega),
    ok_bind]
  rw [GEAR_VERT_buf _ _ _ _
    (by simp only [List.length_append, List.length_cons, List.length_nil]; omega),
    ok_bind]
  simp only [List.append_assoc, List.singleton_append, List.cons_append, List.nil_append]
  exact END_STRIP_buf L _ w _ _

theorem strip_back_face_buf [Field α] (L c : Nat) (n : Fin 3 → α)
    (w : List (GearVertex α)) (p : Fin 7 → point α) (width : α)
    (h : (joinStrip w (backVerts p width)).length ≤ L) :
    strip_back_face p width (bufState L c n w)
      = .ok (bufState L w.length ![0, 0, -1] (joinStrip w (backVerts p width))) := by
  have hroom : w.length + (restartPad w).length + 7 ≤ L := by
    rw [backVerts, joinStrip_length] at h
    simpa using h
  unfold strip_back_face
  dsimp only
  rw [START_STRIP_buf L c n w (by omega), SET_NORMAL_buf]
  rw [GEAR_VERT_buf _ _ _ _
    (by simp only [List.length_append, List.length_cons, List.length_nil]; omega),
    ok_bind]
  rw [GEAR_VERT_buf _ _ _ _
    (by simp only [List.length_append, List.length_cons, List.length_nil]; omega),
    ok_bind]
  rw [GEAR_VERT_buf _ _ _ _
    (by simp only [List.length_append, List.length_cons, List.length_nil]; omega),
    ok_bind]
  rw [GEAR_VERT_buf _ _ _ _
    (by simp only [List.length_append, List.length_cons, List.length_nil]; omega),
    ok_bind]
  rw [GEAR_VERT_buf _ _ _ _
    (by simp only [List.length_append, List.length_cons, List.length_nil]; omega),
    ok_bind]
  rw [GEAR_VERT_buf _ _ _ _
    (by simp only [List.length_append, List.length_cons, List.length_nil]; omega),
    ok_bind]
  rw [GEAR_VERT_buf _ _ _ _
    (by simp only [List.length_append, List.length_cons, List.length_nil]; omega),
    ok_bind]
  simp only [List.append_assoc, List.singleton_append, List.cons_append, List.nil_append]
  exact END_STRIP_buf L _ w _ _

theorem QUAD_WITH_NORMAL_buf [Field α] (L c : Nat) (n : Fin 3 → α)
    (w : List (GearVertex α)) (p : Fin 7 → point α) (width : α) (p1 p2 : Fin 7)
    (h : w.length + 4 ≤ L) :
    QUAD_WITH_NORMAL p width p1 p2 (bufState L c n w)
      = .ok (bufState L c (edgeNormal p p1 p2) (w ++ quadVerts p width p1 p2)) := by
  unfold QUAD_WITH_NORMAL
  dsimp only
  rw [SET_NORMAL_buf]
  rw [GEAR_VERT_buf _ _ _ _ (by omega), ok_bind]
  rw [GEAR_VERT_buf _ _ _ _
    (by simp only [List.length_append, List.length_cons, List.length_nil]; omega),
    ok_bind]
  rw [GEAR_VERT_buf _ _ _ _
    (by simp only [List.length_append, List.length_cons, List.length_nil]; omega),
    ok_bind]
  rw [GEAR_VERT_buf _ _ _ _
    (by simp only [List.length_append, List.length_cons, List.length_nil]; omega),
    ok_bind]
  simp only [List.append_assoc, List.singleton_append, List.cons_append, List.nil_append]
  rfl

theorem strip_outer_face_buf [Field α] (L c : Nat) (n : Fin 3 → α)
    (w : List (GearVertex α)) (p : Fin 7 → point α) (width : α) (p1 p2 : Fin 7)
    (h : (joinStrip w (quadVerts p width p1 p2)).length ≤ L) :
    strip_outer_face p width p1 p2 (bufState L c n w)
      = .ok (bufState L w.length (edgeNormal p p1 p2)
          (joinStrip w (quadVerts p width p1 p2))) := by
  have hroom : w.length + (restartPad w).length + 4 ≤ L := by
    rw [quadVerts, joinStrip_length] at h
    simpa using h
  unfold strip_outer_face
  dsimp only
  rw [START_STRIP_buf L c n w (by omega),
    QUAD_WITH_NORMAL_buf _ _ _ _ _ _ _ _
      (by simp only [List.length_append]; omega), ok_bind]
  simp only [List.append_assoc]
  exact END_STRIP_buf L _ w _ _

theorem strip_inner_face_buf [Field α] (L c : Nat) (n : Fin 3 → α)
    (w : List (GearVertex α)) (p : Fin 7 → point α) (s c' : Fin 5 → α) (width : α)
    (h : (joinStrip w (innerVerts p s c' width)).length ≤ L) :
    strip_inner_face p s c' width (bufState L c n w)
      = .ok (bufState L w.length ![-c' 4, -s 4, 0]
          (joinStrip w (innerVerts p s c' width))) := by
  have hroom : w.length + (restartPad w).length + 4 ≤ L := by
    rw [innerVerts, joinStrip_length] at h
    simpa using h
  unfold strip_inner_face
  dsimp only
  rw [START_STRIP_buf L c n w (by omega), SET_NORMAL_buf]
  rw [GEAR_VERT_buf _ _ _ _
    (by simp only [List.length_append, List.length_cons, List.length_nil]; omega),
    ok_bind]
  rw [GEAR_VERT_buf _ _ _ _
    (by simp only [List.length_append, List.length_cons, List.length_nil]; omega),
    ok_bind]
  rw [SET_NORMAL_buf]
  rw [GEAR_VERT_buf _ _ _ _
    (by simp only [List.length_append, List.length_cons, List.length_nil]; omega),
    ok_bind]
  rw [GEAR_VERT_buf _ _ _ _
    (by simp only [List.length_append, List.length_cons, List.length_nil]; omega),
    ok_bind]
  simp only [List.append_assoc, List.singleton_append, List.cons_append, List.nil_append]
  exact END_STRIP_buf L _ w _ _

theorem joinStrip_length_pos [Zero α] (w : List (GearVertex α)) (b : GearVertex α)
    (r : List (GearVertex α)) (hw : w.length ≠ 0) :
    (joinStrip w (b :: r)).length = w.length + 2 + (r.length + 1) := by
  rw [joinStrip_length, restartPad_length, if_neg hw]

theorem joinStrip_length_of_ne_nil [Zero α] (w s : List (GearVertex α)) (hs : s ≠ []) :
    (joinStrip w s).length = w.length + (restartPad w).length + s.length := by
  cases s with
  | nil => exact absurd rfl hs
  | cons b r => rw [joinStrip_length]; rfl

theorem joinStrip_length_of_pos [Zero α] (w s : List (GearVertex α)) (hs : s ≠ [])
    (hw : 0 < w.length) : (joinStrip w s).length = w.length + 2 + s.length := by
  rw [joinStrip_length_of_ne_nil w s hs, restartPad_length, if_neg (by omega)]

theorem foldl_joinStrip_seven_length [Zero α] (w s1 s2 s3 s4 s5 s6 s7 : List (GearVertex α))
    (h1 : s1.length = 7) (h2 : s2.length = 7) (h3 : s3.length = 4) (h4 : s4.length = 4)
    (h5 : s5.length = 4) (h6 : s6.length = 4) (h7 : s7.length = 4) :
    (joinStrip w s1).length = w.length + (restartPad w).length + 7 ∧
    (joinStrip (joinStrip w s1) s2).length = w.length + (restartPad w).length + 16 ∧
    (joinStrip (joinStrip (joinStrip w s1) s2) s3).length
      = w.length + (restartPad w).length + 22 ∧
    (joinStrip (joinStrip (joinStrip (joinStrip w s1) s2) s3) s4).length
      = w.length + (restartPad w).length + 28 ∧
    (joinStrip (joinStrip (joinStrip (joinStrip (joinStrip w s1) s2) s3) s4) s5).length
      = w.length + (restartPad w).length + 34 ∧
    (joinStrip (joinStrip (joinStrip (joinStrip (joinStrip (joinStrip w s1) s2) s3) s4) s5)
      s6).length = w.length + (restartPad w).length + 40 ∧
    ([s1, s2, s3, s4, s5, s6, s7].foldl joinStrip w).length
      = w.length + (restartPad w).length + 46 := by
  have n1 : s1 ≠ [] := by intro h; rw [h] at h1; simp at h1
  have n2 : s2 ≠ [] := by intro h; rw [h] at h2; simp at h2
  have n3 : s3 ≠ [] := by intro h; rw [h] at h3; simp at h3
  have n4 : s4 ≠ [] := by intro h; rw [h] at h4; simp at h4
  have n5 : s5 ≠ [] := by intro h; rw [h] at h5; simp at h5
  have n6 : s6 ≠ [] := by intro h; rw [h] at h6; simp at h6
  have n7 : s7 ≠ [] := by intro h; rw [h] at h7; simp at h7
  have l1 := joinStrip_length_of_ne_nil w s1 n1
  have l2 := joinStrip_length_of_pos (joinStrip w s1) s2 n2 (by omega)
  have l3 := joinStrip_length_of_pos _ s3 n3 (show 0 < (joinStrip (joinStrip w s1) s2).length
    by omega)
  have l4 := joinStrip_length_of_pos _ s4 n4
    (show 0 < (joinStrip (joinStrip (joinStrip w s1) s2) s3).length by omega)
  have l5 := joinStrip_length_of_pos _ s5 n5
    (show 0 < (joinStrip (joinStrip (joinStrip (joinStrip w s1) s2) s3) s4).length by omega)
  have l6 := joinStrip_length_of_pos _ s6 n6
    (show 0 < (joinStrip (joinStrip (joinStrip (joinStrip (joinStrip w s1) s2) s3) s4)
      s5).length by omega)
  have l7 := joinStrip_length_of_pos _ s7 n7
    (show 0 < (joinStrip (joinStrip (joinStrip (joinStrip (joinStrip (joinStrip w s1) s2) s3)
      s4) s5) s6).length by omega)
  simp only [List.foldl]
  refine ⟨?_, ?_, ?_, ?_, ?_, ?_, ?_⟩ <;> omega

theorem toothStripsOf_length [Field α] (sincos : α → α × α) (pi r0 r1 r2 da width : α)
    (teeth : Int) (i : Nat) (w : List (GearVertex α)) :
    ((toothStripsOf sincos pi r0 r1 r2 da width teeth i).foldl joinStrip w).length
      = w.length + (restartPad w).length + 46 :=
  (foldl_joinStrip_seven_length w
    (frontVerts (tooth_points r0 r1 r2 (fun k => (tooth_sincos sincos pi da teeth i k).1)
      (fun k => (tooth_sincos sincos pi da teeth i k).2)) width) (backVerts (tooth_points r0 r1 r2 (fun k => (tooth_sincos sincos pi da teeth i k).1)
      (fun k => (tooth_sincos sincos pi da teeth i k).2)) width) (quadVerts (tooth_points r0 r1 r2 (fun k => (tooth_sincos sincos pi da teeth i k).1)
      (fun k => (tooth_sincos sincos pi da teeth i k).2)) width 0 2)
    (quadVerts (tooth_points r0 r1 r2 (fun k => (tooth_sincos sincos pi da teeth i k).1)
      (fun k => (tooth_sincos sincos pi da teeth i k).2)) width 1 0) (quadVerts (tooth_points r0 r1 r2 (fun k => (tooth_sincos sincos pi da teeth i k).1)
      (fun k => (tooth_sincos sincos pi da teeth i k).2)) width 3 1) (quadVerts (tooth_points r0 r1 r2 (fun k => (tooth_sincos sincos pi da teeth i k).1)
      (fun k => (tooth_sincos sincos pi da teeth i k).2)) width 5 3)
    (innerVerts (tooth_points r0 r1 r2 (fun k => (tooth_sincos sincos pi da teeth i k).1)
      (fun k => (tooth_sincos sincos pi da teeth i k).2)) (fun k => (tooth_sincos sincos pi da teeth i k).1)
      (fun k => (tooth_sincos sincos pi da teeth i k).2) width)
    rfl rfl rfl rfl rfl rfl rfl).2.2.2.2.2.2

theorem tooth_buf [Field α] (L c : Nat) (n : Fin 3 → α) (w : List (GearVertex α))
    (sincos : α → α × α) (pi r0 r1 r2 da width : α) (teeth : Int) (i : Nat)
    (h : w.length + (restartPad w).length + 46 ≤ L) :
    ∃ c' n', tooth sincos pi r0 r1 r2 da width teeth i (bufState L c n w)
      = .ok (bufState L c' n'
          ((toothStripsOf sincos pi r0 r1 r2 da width teeth i).foldl joinStrip w)) := by
  obtain ⟨l1, l2, l3, l4, l5, l6, l7⟩ := foldl_joinStrip_seven_length w
    (frontVerts (tooth_points r0 r1 r2 (fun k => (tooth_sincos sincos pi da teeth i k).1)
      (fun k => (tooth_sincos sincos pi da teeth i k).2)) width) (backVerts (tooth_points r0 r1 r2 (fun k => (tooth_sincos sincos pi da teeth i k).1)
      (fun k => (tooth_sincos sincos pi da teeth i k).2)) width) (quadVerts (tooth_points r0 r1 r2 (fun k => (tooth_sincos sincos pi da teeth i k).1)
      (fun k => (tooth_sincos sincos pi da teeth i k).2)) width 0 2)
    (quadVerts (tooth_points r0 r1 r2 (fun k => (tooth_sincos sincos pi da teeth i k).1)
      (fun k => (tooth_sincos sincos pi da teeth i k).2)) width 1 0) (quadVerts (tooth_points r0 r1 r2 (fun k => (tooth_sincos sincos pi da teeth i k).1)
      (fun k => (tooth_sincos sincos pi da teeth i k).2)) width 3 1) (quadVerts (tooth_points r0 r1 r2 (fun k => (tooth_sincos sincos pi da teeth i k).1)
      (fun k => (tooth_sincos sincos pi da teeth i k).2)) width 5 3)
    (innerVerts (tooth_points r0 r1 r2 (fun k => (tooth_sincos sincos pi da teeth i k).1)
      (fun k => (tooth_sincos sincos pi da teeth i k).2)) (fun k => (tooth_sincos sincos pi da teeth i k).1)
      (fun k => (tooth_sincos sincos pi da teeth i k).2) width)
    rfl rfl rfl rfl rfl rfl rfl
  simp only [List.foldl] at l7
  apply Exists.intro
  apply Exists.intro
  unfold tooth
  dsimp only
  rw [strip_front_face_buf L c n w _ width (by omega), ok_bind,
    strip_back_face_buf L _ _ _ _ width (by omega), ok_bind,
    strip_outer_face_buf L _ _ _ _ width 0 2 (by omega), ok_bind,
    strip_outer_face_buf L _ _ _ _ width 1 0 (by omega), ok_bind,
    strip_outer_face_buf L _ _ _ _ width 3 1 (by omega), ok_bind,
    strip_outer_face_buf L _ _ _ _ width 5 3 (by omega), ok_bind,
    strip_inner_face_buf L _ _ _ _ _ _ width (by omega)]
  rfl

theorem loopEnd_pad (k : Nat) :
    loopEnd k + (if loopEnd k = 0 then 0 else 2) + 46 = loopEnd (k + 1) := by
  rw [loopEnd_succ]
  unfold loopEnd
  split <;> split <;> omega

theorem gearVerticesOf_length [Field α] (sincos : α → α × α) (pi r0 r1 r2 da width : α)
    (teeth : Int) (k : Nat) :
    ((List.range k).foldl
      (fun w i => (toothStripsOf sincos pi r0 r1 r2 da width teeth i).foldl joinStrip w)
      []).length = loopEnd k := by
  induction k with
  | zero => rfl
  | succ k ih =>
    rw [List.range_succ, List.foldl_append]
    simp only [List.foldl_cons, List.foldl_nil]
    rw [toothStripsOf_length, restartPad_length, ih]
    exact loopEnd_pad k

theorem create_gear_loop_buf [Field α] (sincos : α → α × α) (pi r0 r1 r2 da width : α)
    (teeth : Int) (L : Nat) (n0 : Fin 3 → α) (k : Nat) (hk : loopEnd k ≤ L) :
    ∃ c n, (List.range k).foldlM
        (fun st i => tooth sincos pi r0 r1 r2 da width teeth i st) (bufState L 0 n0 [])
      = .ok (bufState L c n ((List.range k).foldl
          (fun w i => (toothStripsOf sincos pi r0 r1 r2 da width teeth i).foldl joinStrip w)
          [])) := by
  induction k with
  | zero => exact ⟨0, n0, rfl⟩
  | succ k ih =>
    obtain ⟨c, n, e⟩ := ih ((loopEnd_le_succ k).trans hk)
    have hlen := gearVerticesOf_length sincos pi r0 r1 r2 da width teeth k
    obtain ⟨c', n', e'⟩ := tooth_buf L c n
      ((List.range k).foldl
        (fun w i => (toothStripsOf sincos pi r0 r1 r2 da width teeth i).foldl joinStrip w) [])
      sincos pi r0 r1 r2 da width teeth k
      (by rw [restartPad_length, hlen, loopEnd_pad]; exact hk)
    refine ⟨c', n', ?_⟩
    rw [List.range_succ, List.foldlM_append, e, List.foldl_append]
    simpa using e'

theorem create_gear_init_eq [Zero α] (nvertices : Int) :
    (create_gear_init nvertices : GearState α)
      = bufState nvertices.toNat 0 (fun _ => 0) [] := by
  simp [create_gear_init, bufState]

theorem create_gear_eq [Field α] (sincos : α → α × α)
    (pi inner_radius outer_radius width tooth_depth : α) (teeth : Int) (h : 1 ≤ teeth) :
    create_gear sincos pi inner_radius outer_radius width teeth tooth_depth
      = .ok { vertices := gearVertices sincos pi inner_radius outer_radius width teeth
                tooth_depth teeth.toNat
              nvertices := 46 + 48 * (teeth - 1) } := by
  obtain ⟨k, rfl⟩ : ∃ k : Nat, teeth = (k : Int) + 1 := ⟨(teeth - 1).toNat, by omega⟩
  have ht : ((k : Int) + 1).toNat = k + 1 := by omega
  have hn : VERTICES_PER_TOOTH + (VERTICES_PER_TOOTH + 2) * ((k : Int) + 1 - 1)
      = 46 + 48 * ((k : Int) + 1 - 1) := by
    simp only [VERTICES_PER_TOOTH]; ring
  have hL : (46 + 48 * ((k : Int) + 1 - 1)).toNat = loopEnd (k + 1) := by
    rw [loopEnd_succ]; omega
  obtain ⟨c, n, e⟩ := create_gear_loop_buf sincos pi inner_radius
    (outer_radius - tooth_depth / 2) (outer_radius + tooth_depth / 2)
    (2 * pi / (((k : Int) + 1 : Int) : α) / 4) width ((k : Int) + 1) (loopEnd (k + 1))
    (fun _ => 0) (k + 1) (le_refl _)
  have hlen := gearVerticesOf_length sincos pi inner_radius
    (outer_radius - tooth_depth / 2) (outer_radius + tooth_depth / 2)
    (2 * pi / (((k : Int) + 1 : Int) : α) / 4) width ((k : Int) + 1) (k + 1)
  unfold create_gear
  dsimp only
  rw [if_neg (by omega), hn, create_gear_init_eq, hL]
  unfold create_gear_loop
  rw [ht, e, ok_bind]
  have hv : (46 + 48 * ((k : Int) + 1 - 1) : Int)
      = ((bufState (loopEnd (k + 1)) c n ((List.range (k + 1)).foldl
          (fun w i => (toothStripsOf sincos pi inner_radius (outer_radius - tooth_depth / 2)
            (outer_radius + tooth_depth / 2) (2 * pi / (((k : Int) + 1 : Int) : α) / 4)
            width ((k : Int) + 1) i).foldl joinStrip w) [])).v : Int) := by
    simp only [bufState]
    rw [hlen, loopEnd_succ]
    push_cast
    ring
  rw [if_pos hv]
  simp only [bufState, hlen, Nat.sub_self, List.replicate_zero, List.append_nil, pure,
    Except.pure, gearVertices, toothStrips]

end GearContent

/-! ## Helper lemmas: the vertex list -/

section GearListLemmas

variable {α : Type}

theorem joinStrip_mem {w s : List (GearVertex α)} {x : GearVertex α}
    (h : x ∈ joinStrip w s) : x ∈ w ∨ x ∈ s := by
  unfold joinStrip at h
  split at h
  · rename_i a b r hl
    have ha : a ∈ w := List.mem_of_getLast?_eq_some hl
    simp only [List.mem_append, List.mem_cons] at h
    rcases h with h | h | h | h | h
    · exact Or.inl h
    · exact Or.inl (h ▸ ha)
    · exact Or.inr (by simp [h])
    · exact Or.inr (by simp [h])
    · exact Or.inr (by simp [h])
  · simpa using h

theorem foldl_joinStrip_mem {P : GearVertex α → Prop} (strips : List (List (GearVertex α)))
    (hs : ∀ s ∈ strips, ∀ x ∈ s, P x) (w : List (GearVertex α)) (hw : ∀ x ∈ w, P x) :
    ∀ x ∈ strips.foldl joinStrip w, P x := by
  induction strips generalizing w with
  | nil => simpa using hw
  | cons s ss ih =>
    simp only [List.foldl_cons]
    apply ih (fun t ht => hs t (List.mem_cons_of_mem _ ht))
    intro x hx
    rcases joinStrip_mem hx with h | h
    · exact hw x h
    · exact hs s (List.mem_cons_self _ _) x h

theorem joinStrip_append_of_ne_nil (P X s : List (GearVertex α)) (hX : X ≠ []) :
    joinStrip (P ++ X) s = P ++ joinStrip X s := by
  obtain ⟨a, ha⟩ : ∃ a, X.getLast? = some a := by
    cases h : X.getLast? with
    | none => exact absurd (List.getLast?_eq_none_iff.mp h) hX
    | some a => exact ⟨a, rfl⟩
  have hPX : (P ++ X).getLast? = some a := by
    rw [List.getLast?_append, ha]; rfl
  unfold joinStrip
  rw [hPX, ha]
  cases s <;> simp

theorem joinStrip_ne_nil (X s : List (GearVertex α)) (hX : X ≠ []) : joinStrip X s ≠ [] := by
  unfold joinStrip
  split <;> simp [hX]

theorem foldl_joinStrip_append (ss : List (List (GearVertex α))) (P X : List (GearVertex α))
    (hX : X ≠ []) : ss.foldl joinStrip (P ++ X) = P ++ ss.foldl joinStrip X := by
  induction ss generalizing X with
  | nil => rfl
  | cons s ss ih =>
    simp only [List.foldl_cons]
    rw [joinStrip_append_of_ne_nil P X s hX]
    exact ih _ (joinStrip_ne_nil X s hX)

theorem foldl_joinStrip_of_last (w : List (GearVertex α)) (a b : GearVertex α)
    (r : List (GearVertex α)) (ss : List (List (GearVertex α)))
    (ha : w.getLast? = some a) :
    ((b :: r) :: ss).foldl joinStrip w
      = w ++ a :: b :: ((b :: r) :: ss).foldl joinStrip [] := by
  have h1 : joinStrip w (b :: r) = (w ++ [a, b]) ++ (b :: r) := by
    unfold joinStrip
    rw [ha]
    simp
  simp only [List.foldl_cons, joinStrip_nil]
  rw [h1, foldl_joinStrip_append ss _ _ (List.cons_ne_nil b r)]
  simp

theorem gearVertices_length [Field α] (sincos : α → α × α)
    (pi inner_radius outer_radius width : α) (teeth : Int) (tooth_depth : α) (k : Nat) :
    (gearVertices sincos pi inner_radius outer_radius width teeth tooth_depth k).length
      = loopEnd k :=
  gearVerticesOf_length sincos pi inner_radius (outer_radius - tooth_depth / 2)
    (outer_radius + tooth_depth / 2) (2 * pi / (teeth : α) / 4) width teeth k

theorem toothList_length [Field α] (sincos : α → α × α)
    (pi inner_radius outer_radius width : α) (teeth : Int) (tooth_depth : α) (i : Nat) :
    ((toothStrips sincos pi inner_radius outer_radius width teeth tooth_depth i).foldl
      joinStrip []).length = 46 := by
  have h := toothStripsOf_length sincos pi inner_radius (outer_radius - tooth_depth / 2)
    (outer_radius + tooth_depth / 2) (2 * pi / (teeth : α) / 4) width teeth i []
  simpa [restartPad] using h

theorem gearVertices_succ [Field α] (sincos : α → α × α)
    (pi inner_radius outer_radius width : α) (teeth : Int) (tooth_depth : α) (k : Nat) :
    gearVertices sincos pi inner_radius outer_radius width teeth tooth_depth (k + 1)
      = (toothStrips sincos pi inner_radius outer_radius width teeth tooth_depth k).foldl
          joinStrip
          (gearVertices sincos pi inner_radius outer_radius width teeth tooth_depth k) := by
  unfold gearVertices
  rw [List.range_succ, List.foldl_append]
  rfl

theorem gearVertices_one [Field α] (sincos : α → α × α)
    (pi inner_radius outer_radius width : α) (teeth : Int) (tooth_depth : α) :
    gearVertices sincos pi inner_radius outer_radius width teeth tooth_depth 1
      = (toothStrips sincos pi inner_radius outer_radius width teeth tooth_depth 0).foldl
          joinStrip [] :=
  gearVertices_succ sincos pi inner_radius outer_radius width teeth tooth_depth 0

theorem gearVertices_succ_succ [Field α] (sincos : α → α × α)
    (pi inner_radius outer_radius width : α) (teeth : Int) (tooth_depth : α) (k : Nat) :
    ∃ a,
      (gearVertices sincos pi inner_radius outer_radius width teeth tooth_depth
        (k + 1)).getLast? = some a ∧
      gearVertices sincos pi inner_radius outer_radius width teeth tooth_depth (k + 2)
        = gearVertices sincos pi inner_radius outer_radius width teeth tooth_depth (k + 1)
          ++ a :: gearVertex (gearPoints sincos pi inner_radius outer_radius teeth
              tooth_depth (k + 1)) width 0 1 ![0, 0, 1]
            :: (toothStrips sincos pi inner_radius outer_radius width teeth tooth_depth
                (k + 1)).foldl joinStrip [] := by
  have hne : gearVertices sincos pi inner_radius outer_radius width teeth tooth_depth (k + 1)
      ≠ [] := by
    intro h
    have := gearVertices_length sincos pi inner_radius outer_radius width teeth tooth_depth
      (k + 1)
    rw [h, loopEnd_succ] at this
    simp at this
  obtain ⟨a, ha⟩ : ∃ a, (gearVertices sincos pi inner_radius outer_radius width teeth
      tooth_depth (k + 1)).getLast? = some a := by
    cases h : (gearVertices sincos pi inner_radius outer_radius width teeth tooth_depth
      (k + 1)).getLast? with
    | none => exact absurd (List.getLast?_eq_none_iff.mp h) hne
    | some a => exact ⟨a, rfl⟩
  refine ⟨a, ha, ?_⟩
  rw [gearVertices_succ]
  exact foldl_joinStrip_of_last _ a _ _ _ ha

theorem toothList_head [Field α] (sincos : α → α × α)
    (pi inner_radius outer_radius width : α) (teeth : Int) (tooth_depth : α) (i : Nat) :
    ((toothStrips sincos pi inner_radius outer_radius width teeth tooth_depth i).foldl
      joinStrip [])[0]?
      = some (gearVertex (gearPoints sincos pi inner_radius outer_radius teeth tooth_depth i)
          width 0 1 ![0, 0, 1]) := rfl

theorem gearVertices_tooth [Field α] (sincos : α → α × α)
    (pi inner_radius outer_radius width : α) (teeth : Int) (tooth_depth : α)
    (k i t : Nat) (hi : i < k) (ht : t < 46) :
    (gearVertices sincos pi inner_radius outer_radius width teeth tooth_depth k)[48 * i + t]?
      = ((toothStrips sincos pi inner_radius outer_radius width teeth tooth_depth i).foldl
          joinStrip [])[t]? := by
  induction k with
  | zero => omega
  | succ k ih =>
    cases k with
    | zero =>
      have hi0 : i = 0 := by omega
      subst hi0
      rw [gearVertices_one]
      simp
    | succ k =>
      obtain ⟨a, _, e⟩ := gearVertices_succ_succ sincos pi inner_radius outer_radius width
        teeth tooth_depth k
      have hlen := gearVertices_length sincos pi inner_radius outer_radius width teeth
        tooth_depth (k + 1)
      rw [loopEnd_succ] at hlen
      rw [e]
      by_cases hik : i < k + 1
      · rw [List.getElem?_append_left (by omega)]
        exact ih hik
      · have hi1 : i = k + 1 := by omega
        subst hi1
        rw [List.getElem?_append_right (by omega), hlen]
        have hidx : 48 * (k + 1) + t - (48 * k + 46) = t + 2 := by omega
        rw [hidx, List.getElem?_cons_succ, List.getElem?_cons_succ]

theorem gearVertices_restart [Field α] (sincos : α → α × α)
    (pi inner_radius outer_radius width : α) (teeth : Int) (tooth_depth : α)
    (k i : Nat) (hi : i + 1 < k) :
    (gearVertices sincos pi inner_radius outer_radius width teeth tooth_depth k)[48 * i + 46]?
      = (gearVertices sincos pi inner_radius outer_radius width teeth tooth_depth k)[
          48 * i + 45]? ∧
    (gearVertices sincos pi inner_radius outer_radius width teeth tooth_depth k)[48 * i + 47]?
      = (gearVertices sincos pi inner_radius outer_radius width teeth tooth_depth k)[
          48 * i + 48]? := by
  induction k with
  | zero => omega
  | succ k ih =>
    cases k with
    | zero => omega
    | succ k =>
      obtain ⟨a, ha, e⟩ := gearVertices_succ_succ sincos pi inner_radius outer_radius width
        teeth tooth_depth k
      have hlen := gearVertices_length sincos pi inner_radius outer_radius width teeth
        tooth_depth (k + 1)
      rw [loopEnd_succ] at hlen
      by_cases hik : i + 1 < k + 1
      · obtain ⟨h1, h2⟩ := ih hik
        rw [e, List.getElem?_append_left (by omega), List.getElem?_append_left (by omega),
          List.getElem?_append_left (by omega), List.getElem?_append_left (by omega)]
        exact ⟨h1, h2⟩
      · have hi1 : i = k := by omega
        subst hi1
        have hlast : (gearVertices sincos pi inner_radius outer_radius width teeth tooth_depth
            (i + 1))[48 * i + 45]? = some a := by
          rw [List.getLast?_eq_getElem?, hlen] at ha
          exact ha
        rw [e, List.getElem?_append_right (by omega), List.getElem?_append_left (by omega),
          List.getElem?_append_right (by omega), List.getElem?_append_right (by omega), hlen,
          hlast]
        have e1 : 48 * i + 46 - (48 * i + 46) = 0 := by omega
        have e2 : 48 * i + 47 - (48 * i + 46) = 1 := by omega
        have e3 : 48 * i + 48 - (48 * i + 46) = 2 := by omega
        rw [e1, e2, e3]
        exact ⟨rfl, rfl⟩

theorem joinStrip_of_getLast (w : List (GearVertex α)) (a b : GearVertex α)
    (r : List (GearVertex α)) (ha : w.getLast? = some a) :
    joinStrip w (b :: r) = w ++ a :: b :: b :: r := by
  unfold joinStrip
  rw [ha]

theorem toothVerts_eq [Field α] (p : Fin 7 → point α) (s c : Fin 5 → α) (width : α) :
    [frontVerts p width, backVerts p width, quadVerts p width 0 2, quadVerts p width 1 0,
      quadVerts p width 3 1, quadVerts p width 5 3, innerVerts p s c width].foldl
        joinStrip [] = toothVerts p s c width := rfl

theorem toothList_eq [Field α] (sincos : α → α × α)
    (pi inner_radius outer_radius width : α) (teeth : Int) (tooth_depth : α) (i : Nat) :
    (toothStrips sincos pi inner_radius outer_radius width teeth tooth_depth i).foldl
      joinStrip []
      = toothVerts (gearPoints sincos pi inner_radius outer_radius teeth tooth_depth i)
          (fun k => (tooth_sincos sincos pi (2 * pi / (teeth : α) / 4) teeth i k).1)
          (fun k => (tooth_sincos sincos pi (2 * pi / (teeth : α) / 4) teeth i k).2) width :=
  toothVerts_eq _ _ _ _

theorem getElem?_of_drop_take {β : Type} {l u : List β} {off : Nat}
    (h : (l.drop off).take u.length = u) (t : Nat) (ht : t < u.length) :
    l[off + t]? = u[t]? := by
  rw [← List.getElem?_drop, ← List.getElem?_take_of_lt ht, h]

theorem toothVerts_restart [Field α] (p : Fin 7 → point α) (s c : Fin 5 → α) (width : α) :
    (toothVerts p s c width)[7]? = (toothVerts p s c width)[6]? ∧
    (toothVerts p s c width)[8]? = (toothVerts p s c width)[9]? ∧
    (toothVerts p s c width)[16]? = (toothVerts p s c width)[15]? ∧
    (toothVerts p s c width)[17]? = (toothVerts p s c width)[18]? ∧
    (toothVerts p s c width)[22]? = (toothVerts p s c width)[21]? ∧
    (toothVerts p s c width)[23]? = (toothVerts p s c width)[24]? ∧
    (toothVerts p s c width)[28]? = (toothVerts p s c width)[27]? ∧
    (toothVerts p s c width)[29]? = (toothVerts p s c width)[30]? ∧
    (toothVerts p s c width)[34]? = (toothVerts p s c width)[33]? ∧
    (toothVerts p s c width)[35]? = (toothVerts p s c width)[36]? ∧
    (toothVerts p s c width)[40]? = (toothVerts p s c width)[39]? ∧
    (toothVerts p s c width)[41]? = (toothVerts p s c width)[42]? := by
  simp only [toothVerts, List.getElem?_cons_succ, List.getElem?_cons_zero, and_self]

theorem toothList_strip [Field α] (sincos : α → α × α)
    (pi inner_radius outer_radius width : α) (teeth : Int) (tooth_depth : α) (i j t : Nat)
    (hj : j < 7)
    (ht : t < ((toothStrips sincos pi inner_radius outer_radius width teeth tooth_depth
      i).getD j []).length) :
    ((toothStrips sincos pi inner_radius outer_radius width teeth tooth_depth i).foldl
      joinStrip [])[stripOffset j + t]?
      = ((toothStrips sincos pi inner_radius outer_radius width teeth tooth_depth i).getD
          j [])[t]? := by
  refine getElem?_of_drop_take ?_ t ht
  rw [toothList_eq]
  interval_cases j <;> rfl

theorem toothList_restart [Field α] (sincos : α → α × α)
    (pi inner_radius outer_radius width : α) (teeth : Int) (tooth_depth : α) (i j : Nat)
    (hj0 : 0 < j) (hj : j < 7) :
    ((toothStrips sincos pi inner_radius outer_radius width teeth tooth_depth i).foldl
      joinStrip [])[stripOffset j - 2]?
      = ((toothStrips sincos pi inner_radius outer_radius width teeth tooth_depth i).foldl
          joinStrip [])[stripOffset j - 3]? ∧
    ((toothStrips sincos pi inner_radius outer_radius width teeth tooth_depth i).foldl
      joinStrip [])[stripOffset j - 1]?
      = ((toothStrips sincos pi inner_radius outer_radius width teeth tooth_depth i).foldl
          joinStrip [])[stripOffset j]? := by
  rw [toothList_eq]
  obtain ⟨h1, h2, h3, h4, h5, h6, h7, h8, h9, h10, h11, h12⟩ := toothVerts_restart
    (gearPoints sincos pi inner_radius outer_radius teeth tooth_depth i)
    (fun k => (tooth_sincos sincos pi (2 * pi / (teeth : α) / 4) teeth i k).1)
    (fun k => (tooth_sincos sincos pi (2 * pi / (teeth : α) / 4) teeth i k).2) width
  interval_cases j
  · exact ⟨h1, h2⟩
  · exact ⟨h3, h4⟩
  · exact ⟨h5, h6⟩
  · exact ⟨h7, h8⟩
  · exact ⟨h9, h10⟩
  · exact ⟨h11, h12⟩

theorem stripOffset_vals :
    stripOffset 0 = 0 ∧ stripOffset 1 = 9 ∧ stripOffset 2 = 18 ∧ stripOffset 3 = 24 ∧
    stripOffset 4 = 30 ∧ stripOffset 5 = 36 ∧ stripOffset 6 = 42 :=
  ⟨rfl, rfl, rfl, rfl, rfl, rfl, rfl⟩

theorem toothStrips_getD_length_eq [Field α] (sincos : α → α × α)
    (pi inner_radius outer_radius width : α) (teeth : Int) (tooth_depth : α) (i j : Nat) (hj : j < 7) :
    ((toothStrips sincos pi inner_radius outer_radius width teeth tooth_depth i).getD j []).length = stripLength j := by
  interval_cases j <;> rfl

theorem strip_arith (j : Nat) (hj : j < 7) :
    stripOffset j + stripLength j ≤ 46 ∧ 4 ≤ stripLength j ∧
    (0 < j → 9 ≤ stripOffset j ∧
      stripOffset (j - 1) + stripLength (j - 1) + 2 = stripOffset j) := by
  interval_cases j <;> decide

theorem toothStrips_getD_length [Field α] (sincos : α → α × α)
    (pi inner_radius outer_radius width : α) (teeth : Int) (tooth_depth : α) (i j : Nat) (hj : j < 7) :
    stripOffset j + ((toothStrips sincos pi inner_radius outer_radius width teeth tooth_depth i).getD j []).length ≤ 46 ∧
    4 ≤ ((toothStrips sincos pi inner_radius outer_radius width teeth tooth_depth i).getD j []).length ∧
    (0 < j → 9 ≤ stripOffset j ∧
      stripOffset (j - 1) + ((toothStrips sincos pi inner_radius outer_radius width teeth tooth_depth i).getD (j - 1) []).length + 2 = stripOffset j) := by
  rw [toothStrips_getD_length_eq sincos pi inner_radius outer_radius width teeth tooth_depth
    i j hj]
  obtain ⟨h1, h2, h3⟩ := strip_arith j hj
  refine ⟨h1, h2, fun h0 => ?_⟩
  rw [toothStrips_getD_length_eq sincos pi inner_radius outer_radius width teeth tooth_depth
    i (j - 1) (by omega)]
  exact h3 h0

theorem gearVertices_strip [Field α] (sincos : α → α × α)
    (pi inner_radius outer_radius width : α) (teeth : Int) (tooth_depth : α) (k i j t : Nat) (hi : i < k) (hj : j < 7)
    (ht : t < ((toothStrips sincos pi inner_radius outer_radius width teeth tooth_depth i).getD j []).length) :
    (gearVertices sincos pi inner_radius outer_radius width teeth tooth_depth k)[stripFirstReal i j + t]? = ((toothStrips sincos pi inner_radius outer_radius width teeth tooth_depth i).getD j [])[t]? := by
  have hlen := (toothStrips_getD_length sincos pi inner_radius outer_radius width teeth
    tooth_depth i j hj).1
  unfold stripFirstReal
  rw [Nat.add_assoc, gearVertices_tooth sincos pi inner_radius outer_radius width teeth
    tooth_depth k i (stripOffset j + t) hi (by omega)]
  exact toothList_strip sincos pi inner_radius outer_radius width teeth tooth_depth i j t hj ht

theorem gearVertices_restart_inner [Field α] (sincos : α → α × α)
    (pi inner_radius outer_radius width : α) (teeth : Int) (tooth_depth : α) (k i j : Nat) (hi : i < k) (hj0 : 0 < j)
    (hj : j < 7) :
    (gearVertices sincos pi inner_radius outer_radius width teeth tooth_depth k)[48 * i + stripOffset j - 2]? = (gearVertices sincos pi inner_radius outer_radius width teeth tooth_depth k)[48 * i + stripOffset j - 2 - 1]? ∧
    (gearVertices sincos pi inner_radius outer_radius width teeth tooth_depth k)[48 * i + stripOffset j - 2 + 1]? = (gearVertices sincos pi inner_radius outer_radius width teeth tooth_depth k)[48 * i + stripOffset j - 2 + 2]? := by
  obtain ⟨h46, h4, h9⟩ := toothStrips_getD_length sincos pi inner_radius outer_radius width
    teeth tooth_depth i j hj
  have ho := (h9 hj0).1
  obtain ⟨r1, r2⟩ := toothList_restart sincos pi inner_radius outer_radius width teeth
    tooth_depth i j hj0 hj
  have e1 : 48 * i + stripOffset j - 2 = 48 * i + (stripOffset j - 2) := by omega
  have e2 : 48 * i + stripOffset j - 2 - 1 = 48 * i + (stripOffset j - 3) := by omega
  have e3 : 48 * i + stripOffset j - 2 + 1 = 48 * i + (stripOffset j - 1) := by omega
  have e4 : 48 * i + stripOffset j - 2 + 2 = 48 * i + stripOffset j := by omega
  rw [e2, e3, e4, e1,
    gearVertices_tooth sincos pi inner_radius outer_radius width teeth tooth_depth k i _ hi
      (show stripOffset j - 2 < 46 by omega),
    gearVertices_tooth sincos pi inner_radius outer_radius width teeth tooth_depth k i _ hi
      (show stripOffset j - 3 < 46 by omega),
    gearVertices_tooth sincos pi inner_radius outer_radius width teeth tooth_depth k i _ hi
      (show stripOffset j - 1 < 46 by omega),
    gearVertices_tooth sincos pi inner_radius outer_radius width teeth tooth_depth k i _ hi
      (show stripOffset j < 46 by omega)]
  exact ⟨r1, r2⟩

theorem gearVertex_z [Field α] (p : Fin 7 → point α) (width : α) (pt : Fin 7) (sign : α)
    (n : Fin 3 → α) : gearVertex p width pt sign n 2 = sign * width * (1 / 2) := rfl

theorem gearVertex_normal [Field α] (p : Fin 7 → point α) (width : α) (pt : Fin 7) (sign : α)
    (n : Fin 3 → α) :
    gearVertex p width pt sign n 3 = n 0 ∧ gearVertex p width pt sign n 4 = n 1 ∧
    gearVertex p width pt sign n 5 = n 2 :=
  ⟨rfl, rfl, rfl⟩

theorem gearVertex_z_pos [Field α] (p : Fin 7 → point α) (width : α) (pt : Fin 7)
    (n : Fin 3 → α) :
    gearVertex p width pt 1 n 2 = width / 2 ∨ gearVertex p width pt 1 n 2 = -(width / 2) := by
  left
  rw [gearVertex_z]
  ring

theorem gearVertex_z_neg [Field α] (p : Fin 7 → point α) (width : α) (pt : Fin 7)
    (n : Fin 3 → α) :
    gearVertex p width pt (-1) n 2 = width / 2
      ∨ gearVertex p width pt (-1) n 2 = -(width / 2) := by
  right
  rw [gearVertex_z]
  ring

theorem frontVerts_z [Field α] (p : Fin 7 → point α) (width : α) :
    ∀ x ∈ frontVerts p width, x 2 = width / 2 ∨ x 2 = -(width / 2) := by
  intro x hx
  simp only [frontVerts, List.mem_cons, List.mem_singleton, List.not_mem_nil, or_false] at hx
  rcases hx with rfl | rfl | rfl | rfl | rfl | rfl | rfl <;> exact gearVertex_z_pos _ _ _ _

theorem backVerts_z [Field α] (p : Fin 7 → point α) (width : α) :
    ∀ x ∈ backVerts p width, x 2 = width / 2 ∨ x 2 = -(width / 2) := by
  intro x hx
  simp only [backVerts, List.mem_cons, List.mem_singleton, List.not_mem_nil, or_false] at hx
  rcases hx with rfl | rfl | rfl | rfl | rfl | rfl | rfl <;> exact gearVertex_z_neg _ _ _ _

theorem quadVerts_z [Field α] (p : Fin 7 → point α) (width : α) (p1 p2 : Fin 7) :
    ∀ x ∈ quadVerts p width p1 p2, x 2 = width / 2 ∨ x 2 = -(width / 2) := by
  intro x hx
  simp only [quadVerts, List.mem_cons, List.mem_singleton, List.not_mem_nil, or_false] at hx
  rcases hx with rfl | rfl | rfl | rfl
  · exact gearVertex_z_neg _ _ _ _
  · exact gearVertex_z_pos _ _ _ _
  · exact gearVertex_z_neg _ _ _ _
  · exact gearVertex_z_pos _ _ _ _

theorem innerVerts_z [Field α] (p : Fin 7 → point α) (s c : Fin 5 → α) (width : α) :
    ∀ x ∈ innerVerts p s c width, x 2 = width / 2 ∨ x 2 = -(width / 2) := by
  intro x hx
  simp only [innerVerts, List.mem_cons, List.mem_singleton, List.not_mem_nil, or_false] at hx
  rcases hx with rfl | rfl | rfl | rfl
  · exact gearVertex_z_neg _ _ _ _
  · exact gearVertex_z_pos _ _ _ _
  · exact gearVertex_z_neg _ _ _ _
  · exact gearVertex_z_pos _ _ _ _

theorem toothStrips_z [Field α] (sincos : α → α × α)
    (pi inner_radius outer_radius width : α) (teeth : Int) (tooth_depth : α) (i : Nat) :
    ∀ u ∈ toothStrips sincos pi inner_radius outer_radius width teeth tooth_depth i, ∀ x ∈ u, x 2 = width / 2 ∨ x 2 = -(width / 2) := by
  intro u hu
  simp only [toothStrips, toothStripsOf, List.mem_cons, List.mem_singleton, List.not_mem_nil,
    or_false] at hu
  rcases hu with rfl | rfl | rfl | rfl | rfl | rfl | rfl
  · exact frontVerts_z _ _
  · exact backVerts_z _ _
  · exact quadVerts_z _ _ _ _
  · exact quadVerts_z _ _ _ _
  · exact quadVerts_z _ _ _ _
  · exact quadVerts_z _ _ _ _
  · exact innerVerts_z _ _ _ _

theorem gearVertices_z [Field α] (sincos : α → α × α)
    (pi inner_radius outer_radius width : α) (teeth : Int) (tooth_depth : α) (k : Nat) :
    ∀ x ∈ gearVertices sincos pi inner_radius outer_radius width teeth tooth_depth k,
      x 2 = width / 2 ∨ x 2 = -(width / 2) := by
  induction k with
  | zero =>
    intro x hx
    simp [gearVertices] at hx
  | succ k ih =>
    rw [gearVertices_succ]
    exact foldl_joinStrip_mem _
      (toothStrips_z sincos pi inner_radius outer_radius width teeth tooth_depth k) _ ih

end GearListLemmas

/-! ## Helper lemmas: direction of the outer face normals -/

section OuterNormals

theorem edgeDot_eq (p : Fin 7 → point ℝ) (p1 p2 : Fin 7) :
    edgeDot p p1 p2 = (p p1).y * (p p2).x - (p p1).x * (p p2).y := by
  have e0 : edgeNormal p p1 p2 0 = (p p1).y - (p p2).y := rfl
  have e1 : edgeNormal p p1 p2 1 = -((p p1).x - (p p2).x) := rfl
  unfold edgeDot
  rw [e0, e1]
  ring

theorem gearPoints_edgeDot (inner_radius outer_radius tooth_depth : ℝ) (teeth : Int)
    (i : Nat) :
    edgeDot (gearPoints (fun a : ℝ => (Real.sin a, Real.cos a)) Real.pi inner_radius
        outer_radius teeth tooth_depth i) 0 2
      = (outer_radius + tooth_depth / 2) * (outer_radius - tooth_depth / 2)
          * Real.sin (2 * Real.pi / (teeth : ℝ) / 4) ∧
    edgeDot (gearPoints (fun a : ℝ => (Real.sin a, Real.cos a)) Real.pi inner_radius
        outer_radius teeth tooth_depth i) 1 0
      = (outer_radius + tooth_depth / 2) * (outer_radius + tooth_depth / 2)
          * Real.sin (2 * Real.pi / (teeth : ℝ) / 4) ∧
    edgeDot (gearPoints (fun a : ℝ => (Real.sin a, Real.cos a)) Real.pi inner_radius
        outer_radius teeth tooth_depth i) 3 1
      = (outer_radius - tooth_depth / 2) * (outer_radius + tooth_depth / 2)
          * Real.sin (2 * Real.pi / (teeth : ℝ) / 4) ∧
    edgeDot (gearPoints (fun a : ℝ => (Real.sin a, Real.cos a)) Real.pi inner_radius
        outer_radius teeth tooth_depth i) 5 3
      = (outer_radius - tooth_depth / 2) * (outer_radius - tooth_depth / 2)
          * Real.sin (2 * Real.pi / (teeth : ℝ) / 4) := by
  have k1 : ∀ b d : ℝ, Real.sin d
      = Real.sin (b + d) * Real.cos b - Real.cos (b + d) * Real.sin b := by
    intro b d
    rw [← Real.sin_sub]
    congr 1
    ring
  have k2 : ∀ b d : ℝ, Real.sin d
      = Real.sin (b + d * 2) * Real.cos (b + d) - Real.cos (b + d * 2) * Real.sin (b + d) := by
    intro b d
    rw [← Real.sin_sub]
    congr 1
    ring
  have k3 : ∀ b d : ℝ, Real.sin d
      = Real.sin (b + d * 3) * Real.cos (b + d * 2)
        - Real.cos (b + d * 3) * Real.sin (b + d * 2) := by
    intro b d
    rw [← Real.sin_sub]
    congr 1
    ring
  have k4 : ∀ b d : ℝ, Real.sin d
      = Real.sin (b + d * 4) * Real.cos (b + d * 3)
        - Real.cos (b + d * 4) * Real.sin (b + d * 3) := by
    intro b d
    rw [← Real.sin_sub]
    congr 1
    ring
  refine ⟨?_, ?_, ?_, ?_⟩
  · rw [edgeDot_eq, k1 ((i : ℝ) * 2 * Real.pi / (teeth : ℝ)) (2 * Real.pi / (teeth : ℝ) / 4)]
    show (outer_radius + tooth_depth / 2) * Real.sin _ * ((outer_radius - tooth_depth / 2)
        * Real.cos _) - (outer_radius + tooth_depth / 2) * Real.cos _
        * ((outer_radius - tooth_depth / 2) * Real.sin _) = _
    ring
  · rw [edgeDot_eq, k2 ((i : ℝ) * 2 * Real.pi / (teeth : ℝ)) (2 * Real.pi / (teeth : ℝ) / 4)]
    show (outer_radius + tooth_depth / 2) * Real.sin _ * ((outer_radius + tooth_depth / 2)
        * Real.cos _) - (outer_radius + tooth_depth / 2) * Real.cos _
        * ((outer_radius + tooth_depth / 2) * Real.sin _) = _
    ring
  · rw [edgeDot_eq, k3 ((i : ℝ) * 2 * Real.pi / (teeth : ℝ)) (2 * Real.pi / (teeth : ℝ) / 4)]
    show (outer_radius - tooth_depth / 2) * Real.sin _ * ((outer_radius + tooth_depth / 2)
        * Real.cos _) - (outer_radius - tooth_depth / 2) * Real.cos _
        * ((outer_radius + tooth_depth / 2) * Real.sin _) = _
    ring
  · rw [edgeDot_eq, k4 ((i : ℝ) * 2 * Real.pi / (teeth : ℝ)) (2 * Real.pi / (teeth : ℝ) / 4)]
    show (outer_radius - tooth_depth / 2) * Real.sin _ * ((outer_radius - tooth_depth / 2)
        * Real.cos _) - (outer_radius - tooth_depth / 2) * Real.cos _
        * ((outer_radius - tooth_depth / 2) * Real.sin _) = _
    ring

theorem sin_da_pos (teeth : Int) (h : 1 ≤ teeth) :
    0 < Real.sin (2 * Real.pi / (teeth : ℝ) / 4) := by
  have ht : (1 : ℝ) ≤ (teeth : ℝ) := by exact_mod_cast h
  have hpos : (0 : ℝ) < (teeth : ℝ) := by linarith
  have hpi := Real.pi_pos
  apply Real.sin_pos_of_pos_of_lt_pi
  · positivity
  · rw [div_div, div_lt_iff₀ (by positivity)]
    nlinarith

end OuterNormals

/-! ## Helper lemmas: `check_egl_ext` -/

section ExtLemmas

theorem isToken_nil (t : List Char) : ¬ IsToken [] t := by
  rintro ⟨hne, _, pre, post, h, _, _⟩
  have h' : pre ++ t ++ post = [] := h.symm
  simp only [List.append_eq_nil] at h'
  exact hne h'.1.2

theorem isToken_space_cons (rest t : List Char) :
    IsToken (' ' :: rest) t ↔ IsToken rest t := by
  constructor
  · rintro ⟨hne, hsp, pre, post, h, hpre, hpost⟩
    cases pre with
    | nil =>
      cases t with
      | nil => exact absurd rfl hne
      | cons c t' =>
        simp only [List.nil_append, List.cons_append, List.cons.injEq] at h
        exact absurd (h.1 ▸ List.mem_cons_self _ _) hsp
    | cons c pre' =>
      simp only [List.cons_append, List.cons.injEq] at h
      refine ⟨hne, hsp, pre', post, h.2, ?_, hpost⟩
      cases pre' with
      | nil => exact Or.inl rfl
      | cons d pre2 =>
        right
        rcases hpre with hnil | hl
        · exact absurd hnil (List.cons_ne_nil _ _)
        · rwa [List.getLast?_cons_cons] at hl
  · rintro ⟨hne, hsp, pre, post, h, hpre, hpost⟩
    refine ⟨hne, hsp, ' ' :: pre, post, by rw [h]; rfl, Or.inr ?_, hpost⟩
    cases pre with
    | nil => rfl
    | cons d pre' =>
      rcases hpre with hnil | hl
      · exact absurd hnil (List.cons_ne_nil _ _)
      · rwa [List.getLast?_cons_cons]

theorem token_run_unique (t tk post r : List Char) (h : t ++ post = tk ++ r)
    (ht : ' ' ∉ t) (htk : ' ' ∉ tk) (hpost : post = [] ∨ post.head? = some ' ')
    (hr : r = [] ∨ r.head? = some ' ') : t = tk := by
  rcases List.append_eq_append_iff.mp h with ⟨a', rfl, rfl⟩ | ⟨c', rfl, rfl⟩
  · cases a' with
    | nil => simp
    | cons x a2 =>
      rcases hpost with hnil | hh
      · exact absurd hnil (List.cons_ne_nil _ _)
      · simp only [List.cons_append, List.head?_cons, Option.some.injEq] at hh
        exact absurd (by rw [hh]; simp) htk
  · cases c' with
    | nil => simp
    | cons x c2 =>
      rcases hr with hnil | hh
      · exact absurd hnil (List.cons_ne_nil _ _)
      · simp only [List.cons_append, List.head?_cons, Option.some.injEq] at hh
        exact absurd (by rw [hh]; simp) ht

theorem isToken_append (tk r t : List Char) (hne : tk ≠ []) (htk : ' ' ∉ tk)
    (hr : r = [] ∨ r.head? = some ' ') :
    IsToken (tk ++ r) t ↔ t = tk ∨ IsToken r t := by
  constructor
  · rintro ⟨hne', hsp, pre, post, h, hpre, hpost⟩
    rw [List.append_assoc] at h
    rcases List.append_eq_append_iff.mp h with ⟨a', rfl, hr'⟩ | ⟨c', rfl, hr'⟩
    · -- pre = tk ++ a'
      right
      refine ⟨hne', hsp, a', post, by rw [hr', List.append_assoc], ?_, hpost⟩
      cases a' with
      | nil =>
        exfalso
        rcases hpre with hnil | hl
        · simp only [List.append_nil] at hnil
          exact hne hnil
        · simp only [List.append_nil] at hl
          exact htk (List.mem_of_getLast?_eq_some hl)
      | cons x a2 =>
        right
        rcases hpre with hnil | hl
        · simp at hnil
        · rwa [List.getLast?_append_of_ne_nil _ (List.cons_ne_nil _ _)] at hl
    · -- tk = pre ++ c'
      left
      have hpre0 : pre = [] := by
        rcases hpre with hnil | hl
        · exact hnil
        · exact absurd (List.mem_append_left _ (List.mem_of_getLast?_eq_some hl)) htk
      subst hpre0
      simp only [List.nil_append] at hr' htk ⊢
      exact token_run_unique t c' post r hr' hsp htk hpost hr
  · rintro (rfl | ⟨hne', hsp, pre, post, h, hpre, hpost⟩)
    · exact ⟨hne, htk, [], r, rfl, Or.inl rfl, hr⟩
    · refine ⟨hne', hsp, tk ++ pre, post, by rw [h]; simp [List.append_assoc], Or.inr ?_,
        hpost⟩
      cases pre with
      | nil =>
        exfalso
        simp only [List.nil_append] at h
        cases t with
        | nil => exact hne' rfl
        | cons c t' =>
          rcases hr with hnil | hh
          · rw [hnil] at h
            simp at h
          · rw [h] at hh
            simp only [List.cons_append, List.head?_cons, Option.some.injEq] at hh
            exact hsp (by rw [hh]; simp)
      | cons x pre' =>
        rcases hpre with hnil | hl
        · exact absurd hnil (List.cons_ne_nil _ _)
        · rwa [List.getLast?_append_of_ne_nil _ (List.cons_ne_nil _ _)]

theorem check_egl_ext_space (rest ext : List Char) :
    check_egl_ext (' ' :: rest) ext = check_egl_ext rest ext := by
  rw [check_egl_ext]
  simp

theorem check_egl_ext_token (ch : Char) (rest ext : List Char) (h : ch ≠ ' ') :
    check_egl_ext (ch :: rest) ext
      = if strcspn_space (ch :: rest) = ext.length
            ∧ ext.take (strcspn_space (ch :: rest))
              = (ch :: rest).take (strcspn_space (ch :: rest))
        then true
        else check_egl_ext ((ch :: rest).drop (strcspn_space (ch :: rest))) ext := by
  rw [check_egl_ext]
  simp [h]

theorem strcspn_space_split (s : List Char) :
    ∃ tk r, s = tk ++ r ∧ strcspn_space s = tk.length ∧ ' ' ∉ tk ∧
      (r = [] ∨ r.head? = some ' ') ∧
      (∀ ch rest, s = ch :: rest → ch ≠ ' ' → tk ≠ []) := by
  refine ⟨s.takeWhile (fun ch => decide (ch ≠ ' ')), s.dropWhile (fun ch => decide (ch ≠ ' ')),
    (List.takeWhile_append_dropWhile _ s).symm, rfl, ?_, ?_, ?_⟩
  · intro hmem
    have := List.mem_takeWhile_imp hmem
    simp at this
  · have h := List.head?_dropWhile_not (fun ch => decide (ch ≠ ' ')) s
    cases hd : (s.dropWhile (fun ch => decide (ch ≠ ' '))).head? with
    | none => exact Or.inl (List.head?_eq_none_iff.mp hd)
    | some x =>
      right
      rw [hd] at h
      simp only [ne_eq, decide_not, Bool.not_eq_false', decide_eq_true_eq] at h
      rw [h]
  · intro ch rest hs hch
    subst hs
    rw [List.takeWhile_cons]
    simp [hch]

theorem check_egl_ext_iff (ext : List Char) :
    ∀ (n : Nat) (exts : List Char), exts.length ≤ n →
      (check_egl_ext exts ext = true ↔ IsToken exts ext) := by
  intro n
  induction n with
  | zero =>
    intro exts h
    have h0 : exts = [] := List.length_eq_zero.mp (by omega)
    subst h0
    rw [check_egl_ext]
    simp [isToken_nil]
  | succ n ih =>
    intro exts h
    cases exts with
    | nil =>
      rw [check_egl_ext]
      simp [isToken_nil]
    | cons ch rest =>
      by_cases hsp : ch = ' '
      · subst hsp
        rw [check_egl_ext_space, isToken_space_cons]
        exact ih rest (by simpa using h)
      · obtain ⟨tk, r, hs, hn, htk, hr, hne⟩ := strcspn_space_split (ch :: rest)
        have htkne : tk ≠ [] := hne ch rest rfl hsp
        have hlen : r.length ≤ n := by
          have h1 : (ch :: rest).length = tk.length + r.length := by
            rw [hs, List.length_append]
          have h2 : 0 < tk.length := List.length_pos.mpr htkne
          omega
        have key := isToken_append tk r ext htkne htk hr
        rw [check_egl_ext_token ch rest ext hsp, hn, hs, List.take_left, List.drop_left]
        by_cases hc : tk.length = ext.length ∧ List.take tk.length ext = tk
        · rw [if_pos hc]
          have he : ext = tk := by
            rw [← hc.2, hc.1, List.take_length]
          exact ⟨fun _ => key.mpr (Or.inl he), fun _ => rfl⟩
        · rw [if_neg hc, ih r hlen, key]
          constructor
          · exact Or.inr
          · rintro (h1 | h2)
            · exact absurd ⟨by rw [h1], by rw [h1, List.take_length]⟩ hc
            · exact h2

end ExtLemmas

/-! ## Helper lemmas: the frame composer -/

section FrameLemmas

variable {α : Type}

theorem transpose_entries (m : Mat α) :
    transpose m 0 = m 0 ∧
    transpose m 1 = m 4 ∧
    transpose m 2 = m 8 ∧
    transpose m 3 = m 12 ∧
    transpose m 4 = m 1 ∧
    transpose m 5 = m 5 ∧
    transpose m 6 = m 9 ∧
    transpose m 7 = m 13 ∧
    transpose m 8 = m 2 ∧
    transpose m 9 = m 6 ∧
    transpose m 10 = m 10 ∧
    transpose m 11 = m 14 ∧
    transpose m 12 = m 3 ∧
    transpose m 13 = m 7 ∧
    transpose m 14 = m 11 ∧
    transpose m 15 = m 15 :=
  vec16_apply (m 0) (m 4) (m 8) (m 12) (m 1) (m 5) (m 9) (m 13) (m 2) (m 6) (m 10) (m 14) (m 3) (m 7) (m 11) (m 15)

theorem invert_entries_a [CommRing α] (m : Mat α) :
    invert m 0 = m 0 ∧
    invert m 1 = m 4 ∧
    invert m 2 = m 8 ∧
    invert m 3 = 0 := by
  refine ⟨?_, ?_, ?_, ?_⟩
  · simp [invert, multiply_apply, transpose, identity, Function.update_apply,
      Fin.coe_ofNat_eq_mod, vec16_apply]
  · simp [invert, multiply_apply, transpose, identity, Function.update_apply,
      Fin.coe_ofNat_eq_mod, vec16_apply]
  · simp [invert, multiply_apply, transpose, identity, Function.update_apply,
      Fin.coe_ofNat_eq_mod, vec16_apply]
  · simp [invert, multiply_apply, transpose, identity, Function.update_apply,
      Fin.coe_ofNat_eq_mod, vec16_apply]

theorem invert_entries_b [CommRing α] (m : Mat α) :
    invert m 4 = m 1 ∧
    invert m 5 = m 5 ∧
    invert m 6 = m 9 ∧
    invert m 7 = 0 := by
  refine ⟨?_, ?_, ?_, ?_⟩
  · simp [invert, multiply_apply, transpose, identity, Function.update_apply,
      Fin.coe_ofNat_eq_mod, vec16_apply]
  · simp [invert, multiply_apply, transpose, identity, Function.update_apply,
      Fin.coe_ofNat_eq_mod, vec16_apply]
  · simp [invert, multiply_apply, transpose, identity, Function.update_apply,
      Fin.coe_ofNat_eq_mod, vec16_apply]
  · simp [invert, multiply_apply, transpose, identity, Function.update_apply,
      Fin.coe_ofNat_eq_mod, vec16_apply]

theorem invert_entries_c [CommRing α] (m : Mat α) :
    invert m 8 = m 2 ∧
    invert m 9 = m 6 ∧
    invert m 10 = m 10 ∧
    invert m 11 = 0 := by
  refine ⟨?_, ?_, ?_, ?_⟩
  · simp [invert, multiply_apply, transpose, identity, Function.update_apply,
      Fin.coe_ofNat_eq_mod, vec16_apply]
  · simp [invert, multiply_apply, transpose, identity, Function.update_apply,
      Fin.coe_ofNat_eq_mod, vec16_apply]
  · simp [invert, multiply_apply, transpose, identity, Function.update_apply,
      Fin.coe_ofNat_eq_mod, vec16_apply]
  · simp [invert, multiply_apply, transpose, identity, Function.update_apply,
      Fin.coe_ofNat_eq_mod, vec16_apply]

theorem invert_entries_d [CommRing α] (m : Mat α) :
    invert m 12 = m 3 - (m 0 * m 12 + m 1 * m 13 + m 2 * m 14) ∧
    invert m 13 = m 7 - (m 4 * m 12 + m 5 * m 13 + m 6 * m 14) ∧
    invert m 14 = m 11 - (m 8 * m 12 + m 9 * m 13 + m 10 * m 14) ∧
    invert m 15 = m 15 := by
  refine ⟨?_, ?_, ?_, ?_⟩
  · simp [invert, multiply_apply, transpose, identity, Function.update_apply,
      Fin.coe_ofNat_eq_mod, vec16_apply]
    ring
  · simp [invert, multiply_apply, transpose, identity, Function.update_apply,
      Fin.coe_ofNat_eq_mod, vec16_apply]
    ring
  · simp [invert, multiply_apply, transpose, identity, Function.update_apply,
      Fin.coe_ofNat_eq_mod, vec16_apply]
    ring
  · simp [invert, multiply_apply, transpose, identity, Function.update_apply,
      Fin.coe_ofNat_eq_mod, vec16_apply]

theorem zeroTranslation_entries [Zero α] (m : Mat α) :
    zeroTranslation m 0 = m 0 ∧
    zeroTranslation m 1 = m 1 ∧
    zeroTranslation m 2 = m 2 ∧
    zeroTranslation m 3 = m 3 ∧
    zeroTranslation m 4 = m 4 ∧
    zeroTranslation m 5 = m 5 ∧
    zeroTranslation m 6 = m 6 ∧
    zeroTranslation m 7 = m 7 ∧
    zeroTranslation m 8 = m 8 ∧
    zeroTranslation m 9 = m 9 ∧
    zeroTranslation m 10 = m 10 ∧
    zeroTranslation m 11 = m 11 ∧
    zeroTranslation m 12 = 0 ∧
    zeroTranslation m 13 = 0 ∧
    zeroTranslation m 14 = 0 ∧
    zeroTranslation m 15 = m 15 := by
  refine ⟨?_, ?_, ?_, ?_, ?_, ?_, ?_, ?_, ?_, ?_, ?_, ?_, ?_, ?_, ?_, ?_⟩ <;> simp [zeroTranslation, Function.update_apply]

theorem transpose_invert_agree [CommRing α] (m : Mat α) (k : Fin 16)
    (h3 : k ≠ 3) (h7 : k ≠ 7) (h11 : k ≠ 11) :
    transpose (invert m) k = transpose (invert (zeroTranslation m)) k := by
  fin_cases k
  case «3» => exact absurd rfl h3
  case «7» => exact absurd rfl h7
  case «11» => exact absurd rfl h11
  all_goals
    simp [transpose_entries, invert_entries_a, invert_entries_b, invert_entries_c,
      invert_entries_d, zeroTranslation_entries]

theorem transpose_invert_bottom [CommRing α] (m : Mat α) :
    transpose (invert m) 3 = m 3 - (m 0 * m 12 + m 1 * m 13 + m 2 * m 14) ∧
    transpose (invert (zeroTranslation m)) 3 = m 3 := by
  constructor
  · simp [transpose_entries, invert_entries_d]
  · simp [transpose_entries, invert_entries_d, zeroTranslation_entries]

theorem redraw_angle_frames_nonneg [LinearOrderedField α] (dts : List α)
    (hdt : ∀ dt ∈ dts, 0 ≤ dt) (a : α) (ha : a + 70 * dts.sum ≤ 3600) :
    redraw_angle_frames a dts = a + 70 * dts.sum := by
  induction dts generalizing a with
  | nil => simp [redraw_angle_frames]
  | cons dt rest ih =>
    have h0 : 0 ≤ dt := hdt dt (List.mem_cons_self _ _)
    have hrest : ∀ d ∈ rest, 0 ≤ d := fun d hd => hdt d (List.mem_cons_of_mem _ hd)
    have hsum : 0 ≤ rest.sum := List.sum_nonneg hrest
    rw [List.sum_cons] at ha
    have hstep : redraw_angle a dt = a + 70 * dt := by
      unfold redraw_angle
      dsimp only
      rw [if_neg (by linarith)]
    have := ih hrest (a + 70 * dt) (by linarith)
    simp only [redraw_angle_frames, List.foldl_cons, List.sum_cons] at this ⊢
    rw [hstep, this]
    ring

theorem redraw_angle_frames_mod [LinearOrderedField α] (dts : List α) (a : α) :
    ∃ k : Nat, redraw_angle_frames a dts = a + 70 * dts.sum - 3600 * (k : α) := by
  induction dts generalizing a with
  | nil => exact ⟨0, by simp [redraw_angle_frames]⟩
  | cons dt rest ih =>
    obtain ⟨k, hk⟩ := ih (redraw_angle a dt)
    simp only [redraw_angle_frames, List.foldl_cons, List.sum_cons] at hk ⊢
    by_cases hw : a + 70 * dt > 3600
    · have hstep : redraw_angle a dt = a + 70 * dt - 3600 := by
        unfold redraw_angle
        dsimp only
        rw [if_pos hw]
      refine ⟨k + 1, ?_⟩
      rw [hk, hstep]
      push_cast
      ring
    · have hstep : redraw_angle a dt = a + 70 * dt := by
        unfold redraw_angle
        dsimp only
        rw [if_neg hw]
      refine ⟨k, ?_⟩
      rw [hk, hstep]
      ring

end FrameLemmas

/-! ## The claims -/

section Claims

variable {α : Type}

/-- C1: for every `teeth >= 1` (and any radii, width and tooth depth), the loop of
`create_gear`, started on the zero-initialised array of
`VERTICES_PER_TOOTH + (VERTICES_PER_TOOTH + 2) * (teeth - 1)` slots, finishes
without leaving the array, its cursor ends at offset `46 + 48 * (teeth - 1)`,
and `create_gear` passes both assertions and returns a gear whose `nvertices`
is `46 + 48 * (teeth - 1)`, the final cursor offset. -/
theorem C1_create_gear_vertex_count [Field α] (sincos : α → α × α)
    (pi inner_radius outer_radius width tooth_depth : α) (teeth : Int) (h : 1 ≤ teeth) :
    ∃ st g,
      create_gear_loop sincos pi inner_radius (outer_radius - tooth_depth / 2)
          (outer_radius + tooth_depth / 2) (2 * pi / (teeth : α) / 4) width teeth
          (create_gear_init (VERTICES_PER_TOOTH + (VERTICES_PER_TOOTH + 2) * (teeth - 1)))
        = .ok st ∧
      (st.v : Int) = 46 + 48 * (teeth - 1) ∧
      create_gear sincos pi inner_radius outer_radius width teeth tooth_depth = .ok g ∧
      g.nvertices = 46 + 48 * (teeth - 1) ∧
      g.nvertices = (st.v : Int) := by
  obtain ⟨st, e, hv, _⟩ := create_gear_loop_ok sincos pi inner_radius
    (outer_radius - tooth_depth / 2) (outer_radius + tooth_depth / 2)
    (2 * pi / (teeth : α) / 4) width teeth h
  have hn : VERTICES_PER_TOOTH + (VERTICES_PER_TOOTH + 2) * (teeth - 1)
      = 46 + 48 * (teeth - 1) := by
    simp only [VERTICES_PER_TOOTH]; ring
  refine ⟨st, ⟨st.vertices, VERTICES_PER_TOOTH + (VERTICES_PER_TOOTH + 2) * (teeth - 1)⟩,
    e, hv, ?_, hn, hn.trans hv.symm⟩
  unfold create_gear
  simp only []
  rw [if_neg (by omega), e]
  show (if _ then _ else _) = _
  rw [if_pos (hn.trans hv.symm)]
  rfl

/-- C1, witness: with the parameters of `gear1` (20 teeth) over the reals,
`create_gear` returns a gear of 958 vertices. -/
theorem C1_create_gear_vertex_count_witness :
    (1 : Int) ≤ 20 ∧
    ∃ g, create_gear (fun a : ℝ => (Real.sin a, Real.cos a)) Real.pi 1 4 1 20 0.7 = .ok g ∧
      g.nvertices = 958 := by
  refine ⟨by decide, ?_⟩
  obtain ⟨_, g, _, _, hg, hn, _⟩ := C1_create_gear_vertex_count
    (fun a : ℝ => (Real.sin a, Real.cos a)) Real.pi 1 4 1 0.7 20 (by decide)
  exact ⟨g, hg, by rw [hn]; norm_num⟩

/-- C2, counterexample: in the column-major reading, `multiply(m, n)` is not the
product `n x m`: for `m` with a single 1 in row 0, column 1 and `n` with a
single 1 in row 1, column 0, entry `(0, 0)` of the result is 1 while that of
`n x m` is 0. -/
theorem C2_multiply_not_n_times_m :
    toMatrix (multiply (![0, 0, 0, 0, 1, 0, 0, 0, 0, 0, 0, 0, 0, 0, 0, 0] : Mat ℤ)
        ![0, 1, 0, 0, 0, 0, 0, 0, 0, 0, 0, 0, 0, 0, 0, 0])
      ≠ toMatrix (![0, 1, 0, 0, 0, 0, 0, 0, 0, 0, 0, 0, 0, 0, 0, 0] : Mat ℤ)
        * toMatrix (![0, 0, 0, 0, 1, 0, 0, 0, 0, 0, 0, 0, 0, 0, 0, 0] : Mat ℤ) := by
  intro h
  have h00 := congrFun (congrFun h 0) 0
  simp [toMatrix, multiply_apply, Matrix.mul_apply, Fin.sum_univ_four, vec16_apply,
    Fin.coe_ofNat_eq_mod] at h00

/-- C2, amended: in the column-major reading, for all `m` and `n`,
`multiply(m, n)` stores in `m` the matrix product `m x n` (the old `m` as the
left factor, `n` as the right factor). -/
theorem C2_multiply_is_m_times_n [CommRing α] (m n : Mat α) :
    toMatrix (multiply m n) = toMatrix m * toMatrix n :=
  toMatrix_multiply m n

/-- C3: for every matrix whose upper-left 3x3 block is orthogonal and whose
bottom row is `(0, 0, 0, 1)`, `invert` leaves the true inverse: the product of
the result with the original matrix is the identity in either order. -/
theorem C3_invert_is_inverse [CommRing α] (m : Mat α) (h : IsRigid m) :
    toMatrix (invert m) * toMatrix m = 1 ∧ toMatrix m * toMatrix (invert m) = 1 :=
  ⟨invert_mul_self h, self_mul_invert h⟩

/-- C3, witness: the quarter turn about the z axis followed by the
translation `(1, 2, 3)`. -/
theorem C3_invert_is_inverse_witness :
    IsRigid rigidExample ∧
    toMatrix (invert rigidExample) * toMatrix rigidExample = 1 ∧
    toMatrix rigidExample * toMatrix (invert rigidExample) = 1 :=
  ⟨isRigid_rigidExample, C3_invert_is_inverse rigidExample isRigid_rigidExample⟩

/-- C4: for every matrix built from `identity()` by a finite sequence of
`translate` and `rotate` calls with unit-length axes, where `sincos` returns a
pair with `sin^2 + cos^2 = 1`, applying `invert` twice gives the matrix back,
entry by entry. -/
theorem C4_invert_invert_built [CommRing α] (sincos : α → α × α)
    (hsc : ∀ a, (sincos a).1 ^ 2 + (sincos a).2 ^ 2 = 1) (ops : List (Op α))
    (hops : ∀ op ∈ ops, Op.UnitAxis op) :
    invert (invert (applyOps sincos ops identity)) = applyOps sincos ops identity :=
  invert_invert (isRigid_applyOps sincos hsc ops hops isRigid_identity)

/-- C4, witness: over the reals with the real sine and cosine, the view
transform of `redraw` (a translation and rotations about the three axes). -/
theorem C4_invert_invert_built_witness :
    invert (invert (applyOps (fun a : ℝ => (Real.sin a, Real.cos a))
        [Op.translate 0 0 (-40), Op.rotate (2 * Real.pi * 20 / 360) 1 0 0,
          Op.rotate (2 * Real.pi * 30 / 360) 0 1 0, Op.rotate 0 0 0 1] identity))
      = applyOps (fun a : ℝ => (Real.sin a, Real.cos a))
        [Op.translate 0 0 (-40), Op.rotate (2 * Real.pi * 20 / 360) 1 0 0,
          Op.rotate (2 * Real.pi * 30 / 360) 0 1 0, Op.rotate 0 0 0 1] identity :=
  C4_invert_invert_built (fun a : ℝ => (Real.sin a, Real.cos a))
    (fun a => Real.sin_sq_add_cos_sq a) _ (by simp [Op.UnitAxis])

/-- C5: multiplying with the identity on either side leaves a matrix unchanged:
from `m = identity()`, `multiply(m, M)` leaves `m == M`, and from `m = M`,
`multiply(m, identity())` leaves `m == M`. -/
theorem C5_multiply_identity [CommRing α] (M : Mat α) :
    multiply identity M = M ∧ multiply M identity = M :=
  ⟨multiply_identity_left M, multiply_identity_right M⟩

/-- C6: `transpose(transpose(M)) == M` entry by entry, and `transpose` only
permutes entries: the entry at index `4 * c + r` moves to index `4 * r + c`. -/
theorem C6_transpose_involution (M : Mat α) :
    transpose (transpose M) = M ∧
    ∀ r c : Fin 4, transpose M ⟨4 * r.val + c.val, by omega⟩ = M ⟨4 * c.val + r.val, by omega⟩ :=
  ⟨transpose_transpose M, transpose_apply M⟩

/-- C7: for `r != l`, `t != b`, `f != n`, `frustum` overwrites `m`, whatever it
held, with the off-center perspective matrix: `m[0] = 2n/(r-l)`,
`m[5] = 2n/(t-b)`, `m[8] = (r+l)/(r-l)`, `m[9] = (t+b)/(t-b)`,
`m[10] = -(f+n)/(f-n)`, `m[11] = -1`, `m[14] = -2fn/(f-n)`, `m[15] = 0` and
every other entry 0. -/
theorem C7_frustum_entries [Field α] (m : Mat α) (l r b t n f : α)
    (_hrl : r ≠ l) (_htb : t ≠ b) (_hfn : f ≠ n) :
    frustum m l r b t n f =
      ![2 * n / (r - l), 0, 0, 0,
        0, 2 * n / (t - b), 0, 0,
        (r + l) / (r - l), (t + b) / (t - b), -((f + n) / (f - n)), -1,
        0, 0, -(2 * f * n / (f - n)), 0] := by
  funext i
  fin_cases i
  all_goals simp [frustum, Function.update_apply, identity_apply, vec16_apply, neg_div]
  all_goals ring

/-- C7, witness: `frustum(-1, 1, -1, 1, 5, 60)` over the rationals gives
`m[0] = 5`, `m[10] = -65/55`, `m[11] = -1`. -/
theorem C7_frustum_entries_witness :
    ((1 : ℚ) ≠ -1 ∧ (1 : ℚ) ≠ -1 ∧ (60 : ℚ) ≠ 5) ∧
    frustum (identity : Mat ℚ) (-1) 1 (-1) 1 5 60 0 = 5 ∧
    frustum (identity : Mat ℚ) (-1) 1 (-1) 1 5 60 10 = -65 / 55 ∧
    frustum (identity : Mat ℚ) (-1) 1 (-1) 1 5 60 11 = -1 := by
  have h := C7_frustum_entries (identity : Mat ℚ) (-1) 1 (-1) 1 5 60
    (by norm_num) (by norm_num) (by norm_num)
  refine ⟨⟨by norm_num, by norm_num, by norm_num⟩, ?_, ?_, ?_⟩
  · rw [h]; norm_num [vec16_apply]
  · rw [h]; norm_num [vec16_apply]
  · rw [h]; norm_num [vec16_apply]

/-- C8: in the column-major reading, `translate(m, x, y, z)` replaces `m` by
`m x T`, with `T` the identity whose fourth column is `(x, y, z, 1)`. -/
theorem C8_translate_right_multiplies [CommRing α] (m : Mat α) (x y z : α) :
    toMatrix (translate m x y z) = toMatrix m * translationMatrix x y z :=
  toMatrix_translate m x y z

/-- C9: in the column-major reading, with `(s, c)` the pair returned by
`sincos` for the angle, `rotate(m, a, x, y, z)` replaces `m` by `m x R`, with
`R` the Rodrigues matrix whose 3x3 block is `c * I + s * [k]_x + (1 - c) * k * k^T`
and whose fourth row and column are those of the identity. -/
theorem C9_rotate_right_multiplies_rodrigues [CommRing α] (sincos : α → α × α)
    (m : Mat α) (a x y z : α) :
    toMatrix (rotate sincos m a x y z)
      = toMatrix m * rodriguesMatrix (sincos a).1 (sincos a).2 x y z :=
  toMatrix_rotate sincos m a x y z

/-- C10: a zero-angle rotation of the identity is the identity, for every axis,
as soon as `sincos 0` is `(0, 1)`. -/
theorem C10_rotate_zero_angle [CommRing α] (sincos : α → α × α)
    (h0 : sincos 0 = (0, 1)) (x y z : α) :
    rotate sincos identity 0 x y z = identity := by
  apply toMatrix_injective
  rw [toMatrix_rotate, h0, toMatrix_identity, one_mul]
  exact rodriguesMatrix_zero_angle x y z

/-- C10, witness: over the reals with the real sine and cosine, about the
x axis. -/
theorem C10_rotate_zero_angle_witness :
    (fun a : ℝ => (Real.sin a, Real.cos a)) 0 = (0, 1) ∧
    rotate (fun a : ℝ => (Real.sin a, Real.cos a)) identity 0 1 0 0 = identity :=
  ⟨by simp, C10_rotate_zero_angle (fun a : ℝ => (Real.sin a, Real.cos a)) (by simp) 1 0 0⟩

/-- C11: in the buffer that `create_gear` returns for `teeth >= 1`, for strip
number `j` of tooth `i`: the real vertices of the strip occupy consecutive
slots from `stripFirstReal i j` on; the strip start `stripStartIndex i j` is 0
exactly for the first strip of the first tooth, whose first real vertex then
sits at index 0 with no duplicated slot before it; and for every other strip,
with start `k > 0`, the previous strip ends at `k - 1`, the first real vertex
sits at `k + 2`, slot `k` is a copy of slot `k - 1` and slot `k + 1` is a copy
of slot `k + 2`. -/
theorem C11_strip_restart_duplicates [Field α] (sincos : α → α × α)
    (pi inner_radius outer_radius width tooth_depth : α) (teeth : Int) (h : 1 ≤ teeth) :
    ∃ g, create_gear sincos pi inner_radius outer_radius width teeth tooth_depth = .ok g ∧
      ∀ i j : Nat, (i : Int) < teeth → j < 7 →
        (∀ t, t < ((toothStrips sincos pi inner_radius outer_radius width teeth tooth_depth
              i).getD j []).length →
            g.vertices[stripFirstReal i j + t]?
              = ((toothStrips sincos pi inner_radius outer_radius width teeth tooth_depth
                  i).getD j [])[t]?) ∧
        (stripStartIndex i j = 0 ↔ i = 0 ∧ j = 0) ∧
        (stripStartIndex i j = 0 → stripFirstReal i j = 0) ∧
        (0 < stripStartIndex i j →
          (if j = 0 then stripFirstReal (i - 1) 6 + stripLength 6
            else stripFirstReal i (j - 1) + stripLength (j - 1)) = stripStartIndex i j ∧
          stripFirstReal i j = stripStartIndex i j + 2 ∧
          stripStartIndex i j + 2 < g.vertices.length ∧
          g.vertices[stripStartIndex i j]? = g.vertices[stripStartIndex i j - 1]? ∧
          g.vertices[stripStartIndex i j + 1]? = g.vertices[stripStartIndex i j + 2]?) := by
  refine ⟨_, create_gear_eq sincos pi inner_radius outer_radius width tooth_depth teeth h, ?_⟩
  intro i j hi hj
  have hik : i < teeth.toNat := by omega
  obtain ⟨a1, a2, a3⟩ := strip_arith j hj
  have hlen := gearVertices_length sincos pi inner_radius outer_radius width teeth tooth_depth
    teeth.toNat
  have hL : loopEnd teeth.toNat = 48 * teeth.toNat - 2 := by
    unfold loopEnd; rw [if_neg (by omega)]
  refine ⟨fun t ht => gearVertices_strip sincos pi inner_radius outer_radius width teeth
    tooth_depth _ i j t hik hj ht, ?_, ?_, ?_⟩
  · unfold stripStartIndex
    constructor
    · intro h0
      by_contra hne
      rw [if_neg hne] at h0
      rcases Nat.eq_zero_or_pos j with hj0 | hj0
      · subst hj0
        have : i ≠ 0 := fun hi0 => hne ⟨hi0, rfl⟩
        have := stripOffset_vals.1
        omega
      · have := (a3 hj0).1
        omega
    · intro h0
      rw [if_pos h0]
  · intro h0
    unfold stripStartIndex at h0
    unfold stripFirstReal
    by_cases hc : i = 0 ∧ j = 0
    · obtain ⟨rfl, rfl⟩ := hc
      rfl
    · rw [if_neg hc] at h0
      rcases Nat.eq_zero_or_pos j with hj0 | hj0
      · subst hj0
        have : i ≠ 0 := fun hi0 => hc ⟨hi0, rfl⟩
        omega
      · have := (a3 hj0).1
        omega
  · intro hpos
    have hc : ¬ (i = 0 ∧ j = 0) := by
      intro hc
      unfold stripStartIndex at hpos
      rw [if_pos hc] at hpos
      exact absurd hpos (by decide)
    have hk : stripStartIndex i j = 48 * i + stripOffset j - 2 := by
      unfold stripStartIndex; rw [if_neg hc]
    rw [hk, hlen, hL]
    unfold stripFirstReal
    rcases Nat.eq_zero_or_pos j with hj0 | hj0
    · subst hj0
      have hi0 : i ≠ 0 := fun hi0 => hc ⟨hi0, rfl⟩
      obtain ⟨i', rfl⟩ : ∃ i', i = i' + 1 := ⟨i - 1, by omega⟩
      have o0 := stripOffset_vals.1
      have o6 := stripOffset_vals.2.2.2.2.2.2
      have l6 : stripLength 6 = 4 := rfl
      obtain ⟨r1, r2⟩ := gearVertices_restart sincos pi inner_radius outer_radius width teeth
        tooth_depth teeth.toNat i' (by omega)
      have e1 : 48 * (i' + 1) + stripOffset 0 - 2 = 48 * i' + 46 := by omega
      have e2 : 48 * i' + 46 - 1 = 48 * i' + 45 := by omega
      rw [if_pos rfl, e1, e2]
      refine ⟨?_, ?_, ?_, r1, r2⟩
      · simp only [Nat.add_sub_cancel]
        omega
      · omega
      · omega
    · obtain ⟨h9, hprev⟩ := a3 hj0
      obtain ⟨r1, r2⟩ := gearVertices_restart_inner sincos pi inner_radius outer_radius width
        teeth tooth_depth teeth.toNat i j hik hj0 hj
      rw [if_neg (by omega)]
      refine ⟨by omega, by omega, by omega, r1, r2⟩

/-- C11, witness: the gear of 20 teeth over the reals. -/
theorem C11_strip_restart_duplicates_witness :
    (1 : Int) ≤ 20 ∧
    ∃ g, create_gear (fun a : ℝ => (Real.sin a, Real.cos a)) Real.pi 1 4 1 20 0.7 = .ok g ∧
      g.vertices[stripStartIndex 3 2]? = g.vertices[stripStartIndex 3 2 - 1]? ∧
      g.vertices[stripStartIndex 3 2 + 1]? = g.vertices[stripStartIndex 3 2 + 2]? := by
  refine ⟨by decide, ?_⟩
  obtain ⟨g, hg, hall⟩ := C11_strip_restart_duplicates
    (fun a : ℝ => (Real.sin a, Real.cos a)) Real.pi 1 4 1 0.7 20 (by decide)
  obtain ⟨_, _, _, h4⟩ := hall 3 2 (by decide) (by decide)
  obtain ⟨_, _, _, r1, r2⟩ := h4 (by decide)
  exact ⟨g, hg, r1, r2⟩

/-- C12: for every `teeth >= 1` and all radii, width and tooth depth, the gear
that `create_gear` returns has `46 + 48 * (teeth - 1)` vertices, and the first
vertex of its buffer has z-coordinate `width / 2` and normal `(0, 0, 1)`. -/
theorem C12_first_vertex [Field α] (sincos : α → α × α)
    (pi inner_radius outer_radius width tooth_depth : α) (teeth : Int) (h : 1 ≤ teeth) :
    ∃ g v, create_gear sincos pi inner_radius outer_radius width teeth tooth_depth = .ok g ∧
      g.nvertices = 46 + 48 * (teeth - 1) ∧
      g.vertices[0]? = some v ∧ v 2 = width / 2 ∧ v 3 = 0 ∧ v 4 = 0 ∧ v 5 = 1 := by
  refine ⟨_, gearVertex (gearPoints sincos pi inner_radius outer_radius teeth tooth_depth 0)
      width 0 1 ![0, 0, 1],
    create_gear_eq sincos pi inner_radius outer_radius width tooth_depth teeth h, rfl,
    ?_, ?_, rfl, rfl, rfl⟩
  · have h0 := gearVertices_tooth sincos pi inner_radius outer_radius width teeth tooth_depth
      teeth.toNat 0 0 (by omega) (by decide)
    rw [toothList_head] at h0
    exact h0
  · rw [gearVertex_z]
    ring

/-- C12, witness: `create_gear(1.0, 4.0, 1.0, 20, 0.7)` over the reals has 958
vertices, first vertex z `0.5` and normal `(0, 0, 1)`. -/
theorem C12_first_vertex_witness :
    (1 : Int) ≤ 20 ∧
    ∃ (g : gear ℝ) (v : GearVertex ℝ),
      create_gear (fun a : ℝ => (Real.sin a, Real.cos a)) Real.pi 1 4 1 20 0.7 = .ok g ∧
      g.nvertices = 958 ∧
      g.vertices[0]? = some v ∧ v 2 = (0.5 : ℝ) ∧ v 3 = 0 ∧ v 4 = 0 ∧ v 5 = 1 := by
  refine ⟨by decide, ?_⟩
  obtain ⟨g, v, hg, hn, h0, hz, h3, h4, h5⟩ := C12_first_vertex
    (fun a : ℝ => (Real.sin a, Real.cos a)) Real.pi 1 4 1 0.7 20 (by decide)
  exact ⟨g, v, hg, by rw [hn]; norm_num, h0, by rw [hz]; norm_num, h3, h4, h5⟩

/-- C13: for every `teeth >= 1` the buffer that `create_gear` returns has
`46 + 48 * (teeth - 1)` slots, and every one of them, the duplicated restart
slots included, has z-coordinate `width / 2` or `-(width / 2)`; so where
`2` and `width` are nonzero no slot keeps the zero of `calloc`. -/
theorem C13_every_vertex_z [Field α] (sincos : α → α × α)
    (pi inner_radius outer_radius width tooth_depth : α) (teeth : Int) (h : 1 ≤ teeth) :
    ∃ g, create_gear sincos pi inner_radius outer_radius width teeth tooth_depth = .ok g ∧
      (g.vertices.length : Int) = 46 + 48 * (teeth - 1) ∧
      (∀ v ∈ g.vertices, v 2 = width / 2 ∨ v 2 = -(width / 2)) ∧
      ((2 : α) ≠ 0 → width ≠ 0 → ∀ v ∈ g.vertices, v 2 ≠ 0) := by
  have hz := gearVertices_z sincos pi inner_radius outer_radius width teeth tooth_depth
    teeth.toNat
  refine ⟨_, create_gear_eq sincos pi inner_radius outer_radius width tooth_depth teeth h,
    ?_, hz, ?_⟩
  · show ((gearVertices sincos pi inner_radius outer_radius width teeth tooth_depth
      teeth.toNat).length : Int) = _
    rw [gearVertices_length]
    obtain ⟨k, hk⟩ : ∃ k : Nat, teeth.toNat = k + 1 := ⟨teeth.toNat - 1, by omega⟩
    rw [hk, loopEnd_succ]
    omega
  · intro h2 hw v hv hv0
    rcases hz v hv with hq | hq
    · rw [hv0] at hq
      exact div_ne_zero hw h2 hq.symm
    · rw [hv0] at hq
      exact neg_ne_zero.mpr (div_ne_zero hw h2) hq.symm

/-- C13, witness: the gear of 20 teeth over the reals. -/
theorem C13_every_vertex_z_witness :
    (1 : Int) ≤ 20 ∧
    ∃ g, create_gear (fun a : ℝ => (Real.sin a, Real.cos a)) Real.pi 1 4 1 20 0.7 = .ok g ∧
      g.vertices.length = 958 ∧
      ∀ v ∈ g.vertices, v 2 = 1 / 2 ∨ v 2 = -(1 / 2) := by
  refine ⟨by decide, ?_⟩
  obtain ⟨g, hg, hl, hz, _⟩ := C13_every_vertex_z
    (fun a : ℝ => (Real.sin a, Real.cos a)) Real.pi 1 4 1 0.7 20 (by decide)
  exact ⟨g, hg, by omega, hz⟩

/-- C15: `create_gear` fails on the assertion `teeth > 0` exactly when
`teeth <= 0`, and it returns a mesh exactly when `teeth >= 1`: no mesh is ever
produced for a non-positive tooth count. -/
theorem C15_teeth_assertion [Field α] (sincos : α → α × α)
    (pi inner_radius outer_radius width tooth_depth : α) (teeth : Int) :
    (create_gear sincos pi inner_radius outer_radius width teeth tooth_depth
        = .error .assert_teeth ↔ teeth ≤ 0) ∧
    ((∃ g, create_gear sincos pi inner_radius outer_radius width teeth tooth_depth = .ok g)
        ↔ 1 ≤ teeth) := by
  by_cases h : 1 ≤ teeth
  · have e := create_gear_eq sincos pi inner_radius outer_radius width tooth_depth teeth h
    refine ⟨⟨fun he => ?_, fun hle => absurd h (by omega)⟩, ⟨fun _ => h, fun _ => ⟨_, e⟩⟩⟩
    rw [e] at he
    exact absurd he (by simp)
  · have e : create_gear sincos pi inner_radius outer_radius width teeth tooth_depth
        = .error .assert_teeth := by
      unfold create_gear
      dsimp only
      rw [if_pos (by omega)]
    refine ⟨⟨fun _ => by omega, fun _ => e⟩, ⟨fun hg => ?_, fun h1 => absurd h1 h⟩⟩
    obtain ⟨g, hg⟩ := hg
    rw [e] at hg
    exact absurd hg (by simp)

/-- C15, witness: no mesh for 0 or -3 teeth, a mesh for 20 teeth. -/
theorem C15_teeth_assertion_witness :
    create_gear (fun _ : ℚ => ((0 : ℚ), (1 : ℚ))) 3 1 4 1 0 (7 / 10) = .error .assert_teeth ∧
    create_gear (fun _ : ℚ => ((0 : ℚ), (1 : ℚ))) 3 1 4 1 (-3) (7 / 10)
      = .error .assert_teeth ∧
    ∃ g, create_gear (fun _ : ℚ => ((0 : ℚ), (1 : ℚ))) 3 1 4 1 20 (7 / 10) = .ok g :=
  ⟨(C15_teeth_assertion _ 3 1 4 1 (7 / 10) 0).1.mpr (by decide),
   (C15_teeth_assertion _ 3 1 4 1 (7 / 10) (-3)).1.mpr (by decide),
   (C15_teeth_assertion _ 3 1 4 1 (7 / 10) 20).2.mpr (by decide)⟩

/-- C18: for every `teeth >= 1`, with the vertex array holding exactly
`46 + 48 * (teeth - 1)` slots, no access of `create_gear` leaves the array: the
loop, in which every write through `vert` and every read and write of
`END_STRIP` is bounds-checked, runs to its end, and `create_gear` does not
return the out-of-bounds error. -/
theorem C18_no_out_of_bounds [Field α] (sincos : α → α × α)
    (pi inner_radius outer_radius width tooth_depth : α) (teeth : Int) (h : 1 ≤ teeth) :
    ((create_gear_init (VERTICES_PER_TOOTH + (VERTICES_PER_TOOTH + 2) * (teeth - 1)) :
        GearState α).vertices.length : Int) = 46 + 48 * (teeth - 1) ∧
    (∃ st, create_gear_loop sincos pi inner_radius (outer_radius - tooth_depth / 2)
        (outer_radius + tooth_depth / 2) (2 * pi / (teeth : α) / 4) width teeth
        (create_gear_init (VERTICES_PER_TOOTH + (VERTICES_PER_TOOTH + 2) * (teeth - 1)))
      = .ok st) ∧
    create_gear sincos pi inner_radius outer_radius width teeth tooth_depth
      ≠ .error .out_of_bounds := by
  obtain ⟨st, e, _, _⟩ := create_gear_loop_ok sincos pi inner_radius
    (outer_radius - tooth_depth / 2) (outer_radius + tooth_depth / 2)
    (2 * pi / (teeth : α) / 4) width teeth h
  refine ⟨?_, ⟨st, e⟩, ?_⟩
  · simp only [create_gear_init, List.length_replicate, VERTICES_PER_TOOTH]
    omega
  · rw [create_gear_eq sincos pi inner_radius outer_radius width tooth_depth teeth h]
    simp

/-- C18, witness: the gear of 20 teeth over the reals. -/
theorem C18_no_out_of_bounds_witness :
    (1 : Int) ≤ 20 ∧
    create_gear (fun a : ℝ => (Real.sin a, Real.cos a)) Real.pi 1 4 1 20 0.7
      ≠ .error .out_of_bounds :=
  ⟨by decide,
   (C18_no_out_of_bounds (fun a : ℝ => (Real.sin a, Real.cos a)) Real.pi 1 4 1 0.7 20
      (by decide)).2.2⟩

/-- C14, counterexample: with one tooth, outer radius 1 and tooth depth -4 the
base radius `outer_radius - tooth_depth / 2 = 3` is positive, but the normal of
the outer face quad over the edge 0-2 of tooth 0 has a negative dot product
with the outward radial direction at that edge. -/
theorem C14_negative_tooth_depth :
    0 < (1 : ℝ) - (-4) / 2 ∧
    edgeDot (gearPoints (fun a : ℝ => (Real.sin a, Real.cos a)) Real.pi 1 1 1 (-4) 0) 0 2
      < 0 := by
  refine ⟨by norm_num, ?_⟩
  rw [(gearPoints_edgeDot 1 1 (-4) 1 0).1]
  have hs := sin_da_pos 1 (le_refl _)
  have e : ((1 : ℝ) + (-4) / 2) * (1 - (-4) / 2) = -3 := by norm_num
  rw [e]
  linarith

/-- C14, amended: for every `teeth >= 1` and radii with both
`outer_radius - tooth_depth / 2 > 0` and `outer_radius + tooth_depth / 2 > 0`,
over the reals, each of the four outer face quads of every tooth (profile
edges 0-2, 1-0, 3-1, 5-3) carries on all four of its vertices the normal
`(dy, -dx, 0)` of its edge, and the dot product of that normal with the
outward radial direction at the edge is strictly positive. -/
theorem C14_outer_normals (inner_radius outer_radius width tooth_depth : ℝ) (teeth : Int)
    (h : 1 ≤ teeth) (hr1 : 0 < outer_radius - tooth_depth / 2)
    (hr2 : 0 < outer_radius + tooth_depth / 2) :
    ∃ g, create_gear (fun a : ℝ => (Real.sin a, Real.cos a)) Real.pi inner_radius
        outer_radius width teeth tooth_depth = .ok g ∧
      ∀ i q : Nat, (i : Int) < teeth → q < 4 →
        (∀ t, t < 4 → ∃ v, g.vertices[stripFirstReal i (q + 2) + t]? = some v ∧
          v 3 = ((gearPoints (fun a : ℝ => (Real.sin a, Real.cos a)) Real.pi inner_radius
                  outer_radius teeth tooth_depth i) (quadEdge q).1).y
                - ((gearPoints (fun a : ℝ => (Real.sin a, Real.cos a)) Real.pi inner_radius
                  outer_radius teeth tooth_depth i) (quadEdge q).2).y ∧
          v 4 = -(((gearPoints (fun a : ℝ => (Real.sin a, Real.cos a)) Real.pi inner_radius
                  outer_radius teeth tooth_depth i) (quadEdge q).1).x
                - ((gearPoints (fun a : ℝ => (Real.sin a, Real.cos a)) Real.pi inner_radius
                  outer_radius teeth tooth_depth i) (quadEdge q).2).x) ∧
          v 5 = 0) ∧
        0 < edgeDot (gearPoints (fun a : ℝ => (Real.sin a, Real.cos a)) Real.pi inner_radius
              outer_radius teeth tooth_depth i) (quadEdge q).1 (quadEdge q).2 := by
  refine ⟨_, create_gear_eq _ Real.pi inner_radius outer_radius width tooth_depth teeth h, ?_⟩
  intro i q hi hq
  have hik : i < teeth.toNat := by omega
  have hs := sin_da_pos teeth h
  obtain ⟨d1, d2, d3, d4⟩ := gearPoints_edgeDot inner_radius outer_radius tooth_depth teeth i
  constructor
  · intro t ht
    have hlen : t < ((toothStrips (fun a : ℝ => (Real.sin a, Real.cos a)) Real.pi
        inner_radius outer_radius width teeth tooth_depth i).getD (q + 2) []).length := by
      rw [toothStrips_getD_length_eq _ _ _ _ _ _ _ _ _ (by omega)]
      interval_cases q <;> exact ht
    have hstrip := gearVertices_strip (fun a : ℝ => (Real.sin a, Real.cos a)) Real.pi
      inner_radius outer_radius width teeth tooth_depth teeth.toNat i (q + 2) t hik
      (by omega) hlen
    interval_cases q <;> interval_cases t <;>
      exact ⟨_, hstrip.trans rfl, rfl, rfl, rfl⟩
  · interval_cases q
    · show 0 < edgeDot _ 0 2
      rw [d1]; positivity
    · show 0 < edgeDot _ 1 0
      rw [d2]; positivity
    · show 0 < edgeDot _ 3 1
      rw [d3]; positivity
    · show 0 < edgeDot _ 5 3
      rw [d4]; positivity

/-- C14, witness: the parameters of `gear1`. -/
theorem C14_outer_normals_witness :
    ((1 : Int) ≤ 20 ∧ (0 : ℝ) < 4 - 0.7 / 2 ∧ (0 : ℝ) < 4 + 0.7 / 2) ∧
    ∃ g, create_gear (fun a : ℝ => (Real.sin a, Real.cos a)) Real.pi 1 4 1 20 0.7 = .ok g ∧
      0 < edgeDot (gearPoints (fun a : ℝ => (Real.sin a, Real.cos a)) Real.pi 1 4 20 0.7 7)
        (quadEdge 3).1 (quadEdge 3).2 := by
  refine ⟨⟨by decide, by norm_num, by norm_num⟩, ?_⟩
  obtain ⟨g, hg, hall⟩ := C14_outer_normals 1 4 1 0.7 20 (by decide) (by norm_num)
    (by norm_num)
  exact ⟨g, hg, (hall 7 3 (by decide) (by decide)).2⟩

/-- C16, counterexample: for the identity view transform, the gear position
`(1, 0)` and the angle 0, over the reals, entry 3 of the normal matrix of
`draw_gear` is not the entry 3 of the matrix obtained by zeroing the
translation of the model-view matrix, inverting and transposing. -/
theorem C16_normal_matrix_not_zeroed :
    draw_gear_normal_matrix (fun a : ℝ => (Real.sin a, Real.cos a)) Real.pi identity 1 0 0
      ≠ transpose (invert (zeroTranslation
          (draw_gear_model_view (fun a : ℝ => (Real.sin a, Real.cos a)) Real.pi identity
            1 0 0))) := by
  intro h
  have h3 := congrFun h 3
  unfold draw_gear_normal_matrix at h3
  rw [(transpose_invert_bottom _).1, (transpose_invert_bottom _).2] at h3
  have e0 : draw_gear_model_view (fun a : ℝ => (Real.sin a, Real.cos a)) Real.pi identity
      1 0 0 0 = 1 := by
    simp [draw_gear_model_view, rotate, translate, multiply_apply, identity_apply,
      vec16_apply, Fin.coe_ofNat_eq_mod]
  have e1 : draw_gear_model_view (fun a : ℝ => (Real.sin a, Real.cos a)) Real.pi identity
      1 0 0 1 = 0 := by
    simp [draw_gear_model_view, rotate, translate, multiply_apply, identity_apply,
      vec16_apply, Fin.coe_ofNat_eq_mod]
  have e2 : draw_gear_model_view (fun a : ℝ => (Real.sin a, Real.cos a)) Real.pi identity
      1 0 0 2 = 0 := by
    simp [draw_gear_model_view, rotate, translate, multiply_apply, identity_apply,
      vec16_apply, Fin.coe_ofNat_eq_mod]
  have e12 : draw_gear_model_view (fun a : ℝ => (Real.sin a, Real.cos a)) Real.pi identity
      1 0 0 12 = 1 := by
    simp [draw_gear_model_view, rotate, translate, multiply_apply, identity_apply,
      vec16_apply, Fin.coe_ofNat_eq_mod]
  rw [e0, e1, e2, e12] at h3
  linarith

/-- C16, amended: for every view transform, gear position and gear angle, the
normal matrix of `draw_gear` is the transpose of `invert` applied to the
model-view matrix itself (its translation is not zeroed first); it agrees with
the matrix obtained by zeroing the translation entries first, then `invert`,
then `transpose`, at every index other than 3, 7 and 11. -/
theorem C16_normal_matrix [Field α] (sincos : α → α × α) (pi : α) (transform : Mat α)
    (x y angle : α) :
    draw_gear_normal_matrix sincos pi transform x y angle
      = transpose (invert (draw_gear_model_view sincos pi transform x y angle)) ∧
    ∀ k : Fin 16, k ≠ 3 → k ≠ 7 → k ≠ 11 →
      draw_gear_normal_matrix sincos pi transform x y angle k
        = transpose (invert (zeroTranslation
            (draw_gear_model_view sincos pi transform x y angle))) k :=
  ⟨rfl, fun k h3 h7 h11 => transpose_invert_agree _ k h3 h7 h11⟩

/-- C16, witness: entry 0 for the first gear of `redraw` at angle 0. -/
theorem C16_normal_matrix_witness :
    draw_gear_normal_matrix (fun a : ℝ => (Real.sin a, Real.cos a)) Real.pi identity
        (-3) (-2) 0 0
      = transpose (invert (zeroTranslation
          (draw_gear_model_view (fun a : ℝ => (Real.sin a, Real.cos a)) Real.pi identity
            (-3) (-2) 0))) 0 :=
  (C16_normal_matrix (fun a : ℝ => (Real.sin a, Real.cos a)) Real.pi identity (-3) (-2) 0).2
    0 (by decide) (by decide) (by decide)

/-- C17, counterexample: two frames with elapsed times 30 and `3600/70 - 30`
seconds add up to `3600/70` seconds, and the angle after them is not 0. -/
theorem C17_angle_not_zero :
    ((30 : ℚ) + (3600 / 70 - 30) = 3600 / 70) ∧
    redraw_angle_frames (0 : ℚ) [30, 3600 / 70 - 30] ≠ 0 := by
  refine ⟨by norm_num, ?_⟩
  norm_num [redraw_angle_frames, redraw_angle]

/-- C17, amended: starting from `angle = 0`, after frames whose elapsed times
add up to exactly `3600/70` seconds the angle is `3600` minus a multiple of
`3600`, and it is exactly `3600` (not 0) when no elapsed time is negative: the
check `angle > 3600` is strict and does not wrap an advance of exactly 3600
degrees. -/
theorem C17_angle_after_full_advance [LinearOrderedField α] (dts : List α)
    (hsum : dts.sum = 3600 / 70) :
    (∃ k : Nat, redraw_angle_frames 0 dts = 3600 - 3600 * (k : α)) ∧
    ((∀ dt ∈ dts, 0 ≤ dt) → redraw_angle_frames 0 dts = 3600) := by
  have e : (0 : α) + 70 * dts.sum = 3600 := by
    rw [hsum]
    norm_num
  constructor
  · obtain ⟨k, hk⟩ := redraw_angle_frames_mod dts 0
    exact ⟨k, by rw [hk, e]⟩
  · intro hdt
    rw [redraw_angle_frames_nonneg dts hdt 0 (le_of_eq e), e]

/-- C17, witness: 51 frames of one second and one of `3/7` second. -/
theorem C17_angle_after_full_advance_witness :
    ((List.replicate 51 (1 : ℚ) ++ [3 / 7]).sum = 3600 / 70) ∧
    redraw_angle_frames (0 : ℚ) (List.replicate 51 (1 : ℚ) ++ [3 / 7]) = 3600 := by
  have hs : (List.replicate 51 (1 : ℚ) ++ [3 / 7]).sum = 3600 / 70 := by
    simp
    norm_num
  refine ⟨hs, (C17_angle_after_full_advance _ hs).2 ?_⟩
  intro dt hdt
  simp only [List.mem_append, List.mem_replicate, List.mem_singleton] at hdt
  rcases hdt with ⟨_, rfl⟩ | rfl <;> norm_num

/-- C19: rigidity (orthogonal upper-left 3x3 block, bottom row `(0, 0, 0, 1)`) is
an invariant of the transform builders: `identity` is rigid, `translate`
preserves rigidity, `rotate` preserves it for every angle and unit axis when
`sincos` returns a pair with `sin^2 + cos^2 = 1`; hence the model-view matrix
that `draw_gear` builds from the transform of `redraw` and passes to `invert`
is rigid. -/
theorem C19_rigidity_invariant [Field α] (sincos : α → α × α) (pi : α)
    (hsc : ∀ a, (sincos a).1 ^ 2 + (sincos a).2 ^ 2 = 1) :
    IsRigid (identity : Mat α) ∧
    (∀ (m : Mat α) (x y z : α), IsRigid m → IsRigid (translate m x y z)) ∧
    (∀ (m : Mat α) (a x y z : α), IsRigid m → x ^ 2 + y ^ 2 + z ^ 2 = 1 →
      IsRigid (rotate sincos m a x y z)) ∧
    (∀ (view_rot : Fin 3 → α) (x y angle : α),
      IsRigid (draw_gear_model_view sincos pi (redraw_transform sincos pi view_rot)
        x y angle)) := by
  refine ⟨isRigid_identity, fun m x y z hm => isRigid_translate hm x y z,
    fun m a x y z hm hk => isRigid_rotate hm sincos a x y z (hsc a) hk, ?_⟩
  intro view_rot x y angle
  have ex : (1 : α) ^ 2 + 0 ^ 2 + 0 ^ 2 = 1 := by ring
  have ey : (0 : α) ^ 2 + 1 ^ 2 + 0 ^ 2 = 1 := by ring
  have ez : (0 : α) ^ 2 + 0 ^ 2 + 1 ^ 2 = 1 := by ring
  unfold draw_gear_model_view redraw_transform
  exact isRigid_rotate (isRigid_translate
    (isRigid_rotate (isRigid_rotate (isRigid_rotate
      (isRigid_translate isRigid_identity 0 0 (-40)) sincos _ 1 0 0 (hsc _) ex)
      sincos _ 0 1 0 (hsc _) ey) sincos _ 0 0 1 (hsc _) ez) x y 0)
    sincos _ 0 0 1 (hsc _) ez

/-- C19, witness: over the reals with the real sine and cosine, the model-view
matrix of the first gear for the initial view rotation `(20, 30, 0)`. -/
theorem C19_rigidity_invariant_witness :
    IsRigid (draw_gear_model_view (fun a : ℝ => (Real.sin a, Real.cos a)) Real.pi
      (redraw_transform (fun a : ℝ => (Real.sin a, Real.cos a)) Real.pi ![20, 30, 0])
      (-3) (-2) 0) :=
  (C19_rigidity_invariant (fun a : ℝ => (Real.sin a, Real.cos a)) Real.pi
    (fun a => Real.sin_sq_add_cos_sq a)).2.2.2 ![20, 30, 0] (-3) (-2) 0

/-- C20: `check_egl_ext` is a total function, and for all strings `exts` and
`ext` it returns true if and only if `ext` is one of the tokens of `exts` (the
maximal runs of non-space characters); in particular it returns false for the
empty `ext` and for an `ext` that contains a space. -/
theorem C20_check_egl_ext_tokens (exts ext : List Char) :
    (check_egl_ext exts ext = true ↔ IsToken exts ext) ∧
    check_egl_ext exts [] = false ∧
    (' ' ∈ ext → check_egl_ext exts ext = false) := by
  refine ⟨check_egl_ext_iff ext exts.length exts (le_refl _), ?_, ?_⟩
  · cases hc : check_egl_ext exts [] with
    | false => rfl
    | true =>
      have ht := (check_egl_ext_iff [] exts.length exts (le_refl _)).mp hc
      exact absurd rfl ht.1
  · intro hsp
    cases hc : check_egl_ext exts ext with
    | false => rfl
    | true =>
      have ht := (check_egl_ext_iff ext exts.length exts (le_refl _)).mp hc
      exact absurd hsp ht.2.1

/-- C20, witness: in the extension string `ab cd`, the tokens `ab` and `cd` are
found, the proper prefix `a`, the proper substring `b`, the empty string and
the string `ab cd` itself (which contains a space) are not. -/
theorem C20_check_egl_ext_tokens_witness :
    (' ' ∈ ['a', 'b', ' ', 'c', 'd'] ∧
      check_egl_ext ['a', 'b', ' ', 'c', 'd'] ['a', 'b', ' ', 'c', 'd'] = false) ∧
    check_egl_ext ['a', 'b', ' ', 'c', 'd'] ['a', 'b'] = true ∧
    check_egl_ext ['a', 'b', ' ', 'c', 'd'] ['c', 'd'] = true ∧
    check_egl_ext ['a', 'b', ' ', 'c', 'd'] ['a'] = false ∧
    check_egl_ext ['a', 'b', ' ', 'c', 'd'] ['b'] = false ∧
    check_egl_ext ['a', 'b', ' ', 'c', 'd'] [] = false := by
  refine ⟨⟨by decide, (C20_check_egl_ext_tokens ['a', 'b', ' ', 'c', 'd']
      ['a', 'b', ' ', 'c', 'd']).2.2 (by decide)⟩, ?_, ?_, ?_, ?_,
    (C20_check_egl_ext_tokens ['a', 'b', ' ', 'c', 'd'] []).2.1⟩
  · simp [check_egl_ext, strcspn_space]
  · simp [check_egl_ext, strcspn_space]
  · simp [check_egl_ext, strcspn_space]
  · simp [check_egl_ext, strcspn_space]

end Claims

end Wlgears
